import Mathlib

/-!
# Verification of the `p2p_analytics` aggregation package

Shallow embedding of the core aggregation functions of the repository
(`spreads.py`, `premium.py`, `microstructure.py`, `summary.py`) and proofs of
the testable properties stated in the specification.

Modeling conventions:

* A pandas `DataFrame` of listing records is a `List Listing`; each input row
  carries the columns of the processed Phase-1 tables (§3 of the spec).
* `scrape_datetime` is modeled by the hour-of-day it contributes
  (`scrape_datetime.dt.hour`, field `scrape_hour`); the calendar `date` column
  is a separate field, modeled as a natural number, exactly as the code uses
  them (the `date` column verbatim for day grouping, `dt.hour` for hour
  grouping).
* Prices, amounts and rates are exact rationals.  A float cell that holds no
  finite value (pandas `NaN`, and the nonfinite results of dividing by zero)
  is modeled as `none : Option ℚ`.
* Raised exceptions (`KeyError` from a pivot missing a side column,
  `ValueError` from argument validation, `NotImplementedError`) are modeled
  with `Except PdError`.
* `groupby(...)` aggregation followed by `pivot_table` is modeled by
  enumerating the de-duplicated group keys (pandas sorts them ascending) and
  aggregating the matching rows per key; a `(key, side)` combination with no
  rows yields the pivot's fill value (`none` for price pivots, `0` for the
  volume pivot of `_order_imbalance_core`, which passes `fill_value=0.0`).
  A side column exists in the pivot result exactly when that side occurs
  somewhere in the frame; accessing a missing column raises `KeyError`.
* `groupby("currency")[col].diff()` / `.pct_change()` / `.rolling()` are
  modeled by threading per-key state through the row list in order
  (`groupedMap`): each row is transformed using only the state accumulated
  from earlier rows of the same currency, which is exactly pandas' grouped
  window semantics.
-/

namespace P2P

/-- One P2P listing record: a row of the processed Binance tables
(§3 `ListingRecord`): scrape timestamp (modeled by its hour of day),
calendar date, currency, side, price, min/max transaction amount,
merchant name, finish rate, positive rate, per-scrape run index. -/
structure Listing where
  date : Nat
  scrape_hour : Nat
  currency : String
  side : String
  price : ℚ
  min_amount : ℚ
  max_amount : ℚ
  merchant_name : String
  finish_rate : ℚ
  positive_rate : ℚ
  run_index : Nat
deriving DecidableEq

/-- One official-rate record of the BCB master table (§3 `RateRecord`). -/
structure RateRow where
  date : Nat
  currency : String
  official_exchange_rate : ℚ
deriving DecidableEq

/-- The exceptions the package can raise, by site:
`keyError` — column access on a pivot that lacks the column;
`invalidArgument` — the currency/currencies selector check of `p2p_summary`;
`invalidGranularity` — `by must be 'day' or 'hour'`;
`invalidMetric` — `metric must be 'volume' or 'ads'`;
`notImplemented` — `NotImplementedError` for unsupported granularity. -/
inductive PdError
  | keyError
  | invalidArgument
  | invalidGranularity
  | invalidMetric
  | notImplemented
deriving DecidableEq

/-! ## Arithmetic on possibly-missing float cells -/

/-- Lift a binary operation; `NaN` (`none`) propagates, as in pandas. -/
def omap2 (f : ℚ → ℚ → ℚ) : Option ℚ → Option ℚ → Option ℚ
  | some a, some b => some (f a b)
  | _, _ => none

/-- Cell addition. -/
def oadd : Option ℚ → Option ℚ → Option ℚ := omap2 (· + ·)

/-- Cell subtraction. -/
def osub : Option ℚ → Option ℚ → Option ℚ := omap2 (· - ·)

/-- Cell absolute value (`Series.abs`). -/
def oabs (x : Option ℚ) : Option ℚ := x.map (fun q => |q|)

/-- Halve a cell (`/ 2` on a column). -/
def ohalf (x : Option ℚ) : Option ℚ := x.map (fun q => q / 2)

/-- Cell division: missing when either operand is missing or the denominator
is zero (a float division by zero yields no finite value). -/
def odivQ : Option ℚ → Option ℚ → Option ℚ
  | some a, some b => if b = 0 then none else some (a / b)
  | _, _ => none

/-- Multiply a cell by a constant scalar. -/
def oscale (c : ℚ) (x : Option ℚ) : Option ℚ := x.map (fun q => c * q)

/-- `pct_change` step: `(cur - prev) / prev`, missing when `prev` is missing
or zero or `cur` is missing. -/
def opct : Option ℚ → Option ℚ → Option ℚ
  | some cur, some prev => if prev = 0 then none else some ((cur - prev) / prev)
  | _, _ => none

/-- Mean of a column slice: `NaN` on an empty slice. -/
def qmean (l : List ℚ) : Option ℚ :=
  if l.isEmpty then none else some (l.sum / (l.length : ℚ))

/-- Minimum of a column slice (`none` on empty). -/
def qminOf (l : List ℚ) : Option ℚ := l.min?

/-- Maximum of a column slice (`none` on empty). -/
def qmaxOf (l : List ℚ) : Option ℚ := l.max?

/-! ## Group keys -/

/-- Lexicographic order on `(date, hour)` pivot index keys. -/
def pairLE (a b : Nat × Nat) : Prop := a.1 < b.1 ∨ (a.1 = b.1 ∧ a.2 ≤ b.2)

instance : DecidableRel pairLE := fun a b =>
  inferInstanceAs (Decidable (a.1 < b.1 ∨ (a.1 = b.1 ∧ a.2 ≤ b.2)))

/-- Does side `s` occur anywhere in the frame?  Exactly when it does, the
pivot result has a column for it. -/
def hasSide (df : List Listing) (s : String) : Bool :=
  df.any (fun r => r.side == s)

/-! ## Microstructure module (`microstructure.py`) -/

/-- The `(date, hour)` pivot index of `_order_imbalance_core`: de-duplicated
group keys, sorted ascending as pandas does. -/
def imbKeys (df : List Listing) : List (Nat × Nat) :=
  List.insertionSort pairLE ((df.map (fun r => (r.date, r.scrape_hour))).dedup)

/-- Summed `volume` (= `max_amount`) of one side inside one `(date, hour)`
bucket; the pivot's `fill_value=0.0` makes an absent side contribute `0`. -/
def sideVolume (df : List Listing) (s : String) (k : Nat × Nat) : ℚ :=
  ((df.filter (fun r => r.date == k.1 && r.scrape_hour == k.2 && r.side == s)).map
    (fun r => r.max_amount)).sum

/-- Output row of `_order_imbalance_core`. -/
structure ImbRow where
  date : Nat
  hour : Nat
  buy_volume : ℚ
  sell_volume : ℚ
  currency : String
  imbalance : ℚ
deriving DecidableEq

/-- One output row of `_order_imbalance_core`: volumes summed per side with
fill value `0`, `imbalance` initialized to `0` and overwritten with
`(buy - sell) / (buy + sell)` on the rows where `denom > 0`. -/
def imbRowOf (df : List Listing) (currency : String) (k : Nat × Nat) : ImbRow :=
  let b := sideVolume df "BUY" k
  let s := sideVolume df "SELL" k
  { date := k.1, hour := k.2, buy_volume := b, sell_volume := s,
    currency := currency,
    imbalance := if b + s > 0 then (b - s) / (b + s) else 0 }

/-- `_order_imbalance_core(df, currency, by)`: `NotImplementedError` unless
`by='hour'`; groups summed `max_amount` by `(date, hour, side)`, pivots with
`fill_value=0.0`, renames the `BUY`/`SELL` columns and computes the guarded
imbalance ratio.  Accessing `buy_volume`/`sell_volume` raises `KeyError`
when the corresponding side occurs nowhere in the frame (the pivot then has
no such column). -/
def order_imbalance_core (df : List Listing) (currency : String)
    (byArg : String) : Except PdError (List ImbRow) :=
  if byArg ≠ "hour" then .error .notImplemented
  else if hasSide df "BUY" && hasSide df "SELL" then
    .ok ((imbKeys df).map (imbRowOf df currency))
  else .error .keyError

/-- `order_imbalance(currency, by)`: loads the per-currency table and runs
the core.  The loader is an external collaborator, passed as a function. -/
def order_imbalance (load : String → List Listing) (currency : String)
    (byArg : String) : Except PdError (List ImbRow) :=
  order_imbalance_core (load currency) currency byArg

/-! ## Spread module (`spreads.py`) -/

/-- Lexicographic order on `(date, optional hour)` pivot index keys.
Within one call all keys have the same shape (`none` hour for `by='day'`,
`some` hour for `by='hour'`). -/
def bucketLE (a b : Nat × Option Nat) : Prop :=
  a.1 < b.1 ∨ (a.1 = b.1 ∧ a.2.getD 0 ≤ b.2.getD 0)

instance : DecidableRel bucketLE := fun a b =>
  inferInstanceAs (Decidable (a.1 < b.1 ∨ (a.1 = b.1 ∧ a.2.getD 0 ≤ b.2.getD 0)))

/-- The group key a listing falls into: its `date`, plus its scrape hour when
grouping `by='hour'`. -/
def bucketOf (r : Listing) (byArg : String) : Nat × Option Nat :=
  (r.date, if byArg = "day" then none else some r.scrape_hour)

/-- Does listing `r` belong to bucket `k`? -/
def inBucket (r : Listing) (k : Nat × Option Nat) : Bool :=
  r.date == k.1 && (match k.2 with | none => true | some h => r.scrape_hour == h)

/-- The pivot index of `_p2p_spread_core`: de-duplicated `(date[, hour])`
group keys, sorted ascending as pandas does. -/
def spreadKeys (df : List Listing) (byArg : String) : List (Nat × Option Nat) :=
  List.insertionSort bucketLE ((df.map (fun r => bucketOf r byArg)).dedup)

/-- The `price` column slice of one side inside one bucket. -/
def bucketSidePrices (df : List Listing) (s : String) (k : Nat × Option Nat) :
    List ℚ :=
  (df.filter (fun r => inBucket r k && r.side == s)).map (fun r => r.price)

/-- Output row of `_p2p_spread_core` (with `hour = none` for `by='day'`). -/
structure SpreadRow where
  date : Nat
  hour : Option Nat
  avg_buy_price : Option ℚ
  avg_sell_price : Option ℚ
  currency : String
  spread_abs : Option ℚ
  spread_pct : Option ℚ
deriving DecidableEq

/-- One output row of `_p2p_spread_core`: mean price per side (a side absent
from the bucket pivots to `NaN`), `spread_abs = |avg_sell - avg_buy|`,
`spread_pct = spread_abs / mid * 100` with `mid = (avg_sell + avg_buy) / 2`. -/
def spreadRowOf (df : List Listing) (c : String) (k : Nat × Option Nat) :
    SpreadRow :=
  let abuy := qmean (bucketSidePrices df "BUY" k)
  let asell := qmean (bucketSidePrices df "SELL" k)
  let sabs := oabs (osub asell abuy)
  let mid := ohalf (oadd asell abuy)
  { date := k.1, hour := k.2, avg_buy_price := abuy, avg_sell_price := asell,
    currency := c, spread_abs := sabs,
    spread_pct := (odivQ sabs mid).map (fun q => q * 100) }

/-- `_p2p_spread_core(df, currency, by)`: validates `by`, groups mean price
by bucket and side, pivots side into `avg_buy_price` / `avg_sell_price`
columns, computes the spread metrics.  The subtraction
`grouped["avg_sell_price"] - grouped["avg_buy_price"]` raises `KeyError`
when either side occurs nowhere in the frame (its pivot column is absent). -/
def p2p_spread_core (df : List Listing) (c : String) (byArg : String) :
    Except PdError (List SpreadRow) :=
  if byArg = "day" ∨ byArg = "hour" then
    if hasSide df "BUY" && hasSide df "SELL" then
      .ok ((spreadKeys df byArg).map (spreadRowOf df c))
    else .error .keyError
  else .error .invalidGranularity

/-- `p2p_spread(currency, by)`: loads the per-currency table, runs the core. -/
def p2p_spread (load : String → List Listing) (currency : String)
    (byArg : String) : Except PdError (List SpreadRow) :=
  p2p_spread_core (load currency) currency byArg

/-- Output row of `intraday_profile`. -/
structure IntradayRow where
  hour : Nat
  mean_buy_price : Option ℚ
  mean_sell_price : Option ℚ
  currency : String
deriving DecidableEq

/-- The pivot index of `intraday_profile`: the de-duplicated hours that occur
in the frame, sorted ascending. -/
def hourKeys (df : List Listing) : List Nat :=
  List.insertionSort (· ≤ ·) ((df.map (fun r => r.scrape_hour)).dedup)

/-- The `price` column slice of one side at one hour (across all dates). -/
def hourSidePrices (df : List Listing) (s : String) (h : Nat) : List ℚ :=
  (df.filter (fun r => r.scrape_hour == h && r.side == s)).map (fun r => r.price)

/-- `intraday_profile(currency)`: mean price per `(hour, side)` over all
dates, pivoted on side.  One row per hour that occurs in the data; the mean
of a side with no listings at that hour is the pivot's `NaN` (and when a
side occurs nowhere at all its column is absent — its cells are modeled as
missing values, which is never observed because the function does not access
the side columns). -/
def intraday_profile (df : List Listing) (c : String) : List IntradayRow :=
  (hourKeys df).map (fun h =>
    { hour := h,
      mean_buy_price := qmean (hourSidePrices df "BUY" h),
      mean_sell_price := qmean (hourSidePrices df "SELL" h),
      currency := c })

/-- Lexicographic order on `(date, currency)` pivot index keys. -/
def dcLE (a b : Nat × String) : Prop :=
  a.1 < b.1 ∨ (a.1 = b.1 ∧ a.2 ≤ b.2)

instance : DecidableRel dcLE := fun a b =>
  inferInstanceAs (Decidable (a.1 < b.1 ∨ (a.1 = b.1 ∧ a.2 ≤ b.2)))

/-- The pivot index of `fiat_comparison`: de-duplicated `(date, currency)`
keys of the filtered master frame, sorted ascending. -/
def fiatKeys (df : List Listing) : List (Nat × String) :=
  List.insertionSort dcLE ((df.map (fun r => (r.date, r.currency))).dedup)

/-- Output row of `fiat_comparison`. -/
structure FiatRow where
  date : Nat
  currency : String
  avg_buy_price : Option ℚ
  avg_sell_price : Option ℚ
  spread_abs : Option ℚ
  spread_pct : Option ℚ
deriving DecidableEq

/-- The `price` column slice of one side inside one `(date, currency)`
group. -/
def fiatSidePrices (df : List Listing) (s : String) (k : Nat × String) :
    List ℚ :=
  (df.filter (fun r => r.date == k.1 && r.currency == k.2 && r.side == s)).map
    (fun r => r.price)

/-- One output row of `fiat_comparison`: same spread formulas as
`_p2p_spread_core`, per `(date, currency)`. -/
def fiatRowOf (df : List Listing) (k : Nat × String) : FiatRow :=
  let abuy := qmean (fiatSidePrices df "BUY" k)
  let asell := qmean (fiatSidePrices df "SELL" k)
  let sabs := oabs (osub asell abuy)
  let mid := ohalf (oadd asell abuy)
  { date := k.1, currency := k.2, avg_buy_price := abuy,
    avg_sell_price := asell, spread_abs := sabs,
    spread_pct := (odivQ sabs mid).map (fun q => q * 100) }

/-- `fiat_comparison(currencies)`: filters the master frame to the requested
currencies, groups mean price by `(date, currency, side)`, pivots, computes
the spread metrics (`KeyError` when a side occurs nowhere in the filtered
frame). -/
def fiat_comparison (master : List Listing) (currencies : List String) :
    Except PdError (List FiatRow) :=
  let sub := master.filter (fun r => currencies.contains r.currency)
  if hasSide sub "BUY" && hasSide sub "SELL" then
    .ok ((fiatKeys sub).map (fiatRowOf sub))
  else .error .keyError

/-! ## Premium module (`premium.py`) -/

/-- Output row of `official_premium` (its six selected columns). -/
structure PremiumRow where
  date : Nat
  currency : String
  p2p_avg_price : Option ℚ
  official_exchange_rate : ℚ
  premium_abs : Option ℚ
  premium_pct : Option ℚ
deriving DecidableEq

/-- One joined row of `official_premium`:
`p2p_avg_price = (avg_buy + avg_sell) / 2` (computed on the daily frame
before the join), `premium_abs = |p2p - official|`,
`premium_pct = (p2p / official - 1) * 100`. -/
def premiumRowOf (dr : SpreadRow) (br : RateRow) : PremiumRow :=
  let mid := ohalf (oadd dr.avg_buy_price dr.avg_sell_price)
  { date := dr.date, currency := dr.currency, p2p_avg_price := mid,
    official_exchange_rate := br.official_exchange_rate,
    premium_abs := oabs (osub mid (some br.official_exchange_rate)),
    premium_pct := (odivQ mid (some br.official_exchange_rate)).map
      (fun q => (q - 1) * 100) }

/-- `official_premium(currency, by)`: `NotImplementedError` unless
`by='day'`; computes the daily spread core, the daily mid price, filters the
BCB master to the target currency and inner-joins on `(date, currency)` —
daily rows without a matching official rate are dropped; each joined pair
yields one premium row. -/
def official_premium (load : String → List Listing) (bcb : List RateRow)
    (currency : String) (byArg : String) : Except PdError (List PremiumRow) :=
  if byArg ≠ "day" then .error .notImplemented
  else
    match p2p_spread_core (load currency) currency "day" with
    | .error e => .error e
    | .ok daily =>
        .ok (daily.flatMap (fun dr =>
          ((bcb.filter (fun br => br.currency == currency)).filter
              (fun br => br.date == dr.date && br.currency == dr.currency)).map
            (premiumRowOf dr)))

/-! ## Grouped column transforms

pandas' `df.groupby("currency")[col].diff() / .pct_change() / .rolling(...)`
compute each row's value from the rows *of the same group* that precede it
in the frame's current order.  `groupedMap key upd out st l` models this by
threading a per-key state through the list: row `r` is transformed by
`out` applied to the state accumulated (by `upd`) from the earlier rows
whose `key` equals `key r`; `st` is the initial state of each key. -/

/-- Stateful per-key map: the grouped-transform semantics of pandas. -/
def groupedMap {β γ σ : Type} (key : β → String) (upd : σ → β → σ)
    (out : σ → β → γ) : (String → σ) → List β → List γ
  | _, [] => []
  | st, r :: rs =>
      out (st (key r)) r ::
        groupedMap key upd out
          (fun s => if s = key r then upd (st (key r)) r else st s) rs

/-- The state seen by the key `c` after the rows of `pre` have been
processed. -/
def stApply {β σ : Type} (key : β → String) (upd : σ → β → σ)
    (st : String → σ) : List β → String → σ
  | [], s => st s
  | r :: rs, s =>
      stApply key upd (fun s' => if s' = key r then upd (st (key r)) r else st s') rs s

theorem groupedMap_length {β γ σ : Type} (key : β → String) (upd : σ → β → σ)
    (out : σ → β → γ) (st : String → σ) (l : List β) :
    (groupedMap key upd out st l).length = l.length := by
  induction l generalizing st with
  | nil => rfl
  | cons r rs ih => simp [groupedMap, ih]

/-- Indexing a grouped transform: the `i`-th output is `out` applied to the
state accumulated over the first `i` rows (at the `i`-th row's key) and the
`i`-th row itself. -/
theorem groupedMap_get? {β γ σ : Type} (key : β → String) (upd : σ → β → σ)
    (out : σ → β → γ) (st : String → σ) (l : List β) (i : Nat) :
    (groupedMap key upd out st l).get? i
      = (l.get? i).map (fun r => out (stApply key upd st (l.take i) (key r)) r) := by
  induction l generalizing st i with
  | nil => simp [groupedMap]
  | cons r rs ih =>
    cases i with
    | zero => simp [groupedMap, stApply]
    | succ n =>
      rw [groupedMap, List.get?_cons_succ, ih, List.take_succ_cons]
      rfl

/-- A key whose rows are absent from `pre` still sees its initial state. -/
theorem stApply_of_not_mem {β σ : Type} (key : β → String) (upd : σ → β → σ)
    (st : String → σ) (pre : List β) (c : String)
    (h : ∀ r ∈ pre, key r ≠ c) : stApply key upd st pre c = st c := by
  induction pre generalizing st with
  | nil => rfl
  | cons r rs ih =>
    have hr : key r ≠ c := h r (List.mem_cons_self r rs)
    rw [stApply, ih _ (fun x hx => h x (List.mem_cons_of_mem r hx))]
    simp [if_neg (fun hc : c = key r => hr hc.symm)]

/-- Restricting a grouped transform to one key: the output rows of key `c`
are computed from the input rows of key `c` alone (no cross-group leakage),
provided `out` preserves the key and the two initial states agree at `c`. -/
theorem groupedMap_filter {β γ σ : Type} (key : β → String) (upd : σ → β → σ)
    (out : σ → β → γ) (keyOut : γ → String)
    (hpres : ∀ s r, keyOut (out s r) = key r) (c : String)
    (st st' : String → σ) (h0 : st c = st' c) (l : List β) :
    (groupedMap key upd out st l).filter (fun g => keyOut g == c)
      = groupedMap key upd out st' (l.filter (fun r => key r == c)) := by
  induction l generalizing st st' with
  | nil => rfl
  | cons r rs ih =>
    by_cases hc : key r = c
    · rw [groupedMap, List.filter_cons]
      rw [if_pos (show (keyOut (out (st (key r)) r) == c) = true by
        simp [hpres, hc])]
      rw [List.filter_cons]
      rw [if_pos (show (key r == c) = true by simp [hc])]
      rw [groupedMap]
      have hst : st (key r) = st' (key r) := by rw [hc]; exact h0
      rw [hst]
      congr 1
      apply ih
      subst hc
      simp [h0]
    · rw [groupedMap, List.filter_cons]
      rw [if_neg (show ¬ (keyOut (out (st (key r)) r) == c) = true by
        simp [hpres, hc])]
      rw [List.filter_cons]
      rw [if_neg (show ¬ (key r == c) = true by simp [hc])]
      apply ih
      rw [if_neg (fun hck : c = key r => hc hck.symm)]
      exact h0

/-! ## Summary module (`summary.py`) -/

/-- The group key of `p2p_summary` / `price_volatility`:
`(date, currency)` for `by='day'`, `(date, hour, currency)` for
`by='hour'`. -/
def sumKeyOf (r : Listing) (byArg : String) : Nat × Option Nat × String :=
  (r.date, if byArg = "day" then none else some r.scrape_hour, r.currency)

/-- The final row order of `p2p_summary` / `price_volatility`:
`sort_values(["currency", "date"(, "hour")])`. -/
def sumSortLE (a b : Nat × Option Nat × String) : Prop :=
  a.2.2 < b.2.2
    ∨ (a.2.2 = b.2.2
        ∧ (a.1 < b.1 ∨ (a.1 = b.1 ∧ a.2.1.getD 0 ≤ b.2.1.getD 0)))

instance : DecidableRel sumSortLE := fun a b =>
  inferInstanceAs (Decidable (a.2.2 < b.2.2
    ∨ (a.2.2 = b.2.2
        ∧ (a.1 < b.1 ∨ (a.1 = b.1 ∧ a.2.1.getD 0 ≤ b.2.1.getD 0)))))

/-- The bucket keys of the summary pipeline, in final row order: the
de-duplicated group keys (the pivot index), re-sorted by
`(currency, date[, hour])`; keys are unique, so the order is fully
determined. -/
def sumKeys (df : List Listing) (byArg : String) :
    List (Nat × Option Nat × String) :=
  List.insertionSort sumSortLE ((df.map (fun r => sumKeyOf r byArg)).dedup)

/-- The `price` column slice of one side inside one summary bucket. -/
def sumPrices (df : List Listing) (byArg s : String)
    (k : Nat × Option Nat × String) : List ℚ :=
  (df.filter (fun r => decide (sumKeyOf r byArg = k) && r.side == s)).map
    (fun r => r.price)

/-- A summary bucket row before the change columns are added: per-side
avg/min/max price (a side absent from the bucket pivots to `NaN`), mid
price, spread metrics. -/
structure SumBase where
  date : Nat
  hour : Option Nat
  currency : String
  avg_buy_price : Option ℚ
  avg_sell_price : Option ℚ
  min_buy_price : Option ℚ
  min_sell_price : Option ℚ
  max_buy_price : Option ℚ
  max_sell_price : Option ℚ
  mid_price : Option ℚ
  spread_abs : Option ℚ
  spread_pct : Option ℚ
deriving DecidableEq

/-- One summary bucket row: `mid_price = (avg_buy + avg_sell) / 2`,
`spread_abs = |avg_sell - avg_buy|`, `spread_pct = spread_abs / mid * 100`. -/
def sumBaseOf (df : List Listing) (byArg : String)
    (k : Nat × Option Nat × String) : SumBase :=
  let pb := sumPrices df byArg "BUY" k
  let ps := sumPrices df byArg "SELL" k
  let abuy := qmean pb
  let asell := qmean ps
  let mid := ohalf (oadd abuy asell)
  let sabs := oabs (osub asell abuy)
  { date := k.1, hour := k.2.1, currency := k.2.2,
    avg_buy_price := abuy, avg_sell_price := asell,
    min_buy_price := qminOf pb, min_sell_price := qminOf ps,
    max_buy_price := qmaxOf pb, max_sell_price := qmaxOf ps,
    mid_price := mid, spread_abs := sabs,
    spread_pct := (odivQ sabs mid).map (fun q => q * 100) }

/-- Output row of `p2p_summary`: a bucket row plus the change-vs-previous
columns. -/
structure SummaryRow where
  date : Nat
  hour : Option Nat
  currency : String
  avg_buy_price : Option ℚ
  avg_sell_price : Option ℚ
  min_buy_price : Option ℚ
  min_sell_price : Option ℚ
  max_buy_price : Option ℚ
  max_sell_price : Option ℚ
  mid_price : Option ℚ
  spread_abs : Option ℚ
  spread_pct : Option ℚ
  mid_price_change : Option ℚ
  mid_price_pct_change : Option ℚ
  spread_abs_change : Option ℚ
  spread_pct_change : Option ℚ
deriving DecidableEq

/-- Add the change columns to a bucket row given the previous bucket row of
the same currency (if any): `diff` is `cur - prev` (`NaN` when there is no
previous row or an operand is `NaN`), `pct_change * 100` analogously. -/
def chgOut (prev : Option SumBase) (r : SumBase) : SummaryRow :=
  let prevMid := match prev with | none => none | some p => p.mid_price
  let prevSabs := match prev with | none => none | some p => p.spread_abs
  let prevSpct := match prev with | none => none | some p => p.spread_pct
  { date := r.date, hour := r.hour, currency := r.currency,
    avg_buy_price := r.avg_buy_price, avg_sell_price := r.avg_sell_price,
    min_buy_price := r.min_buy_price, min_sell_price := r.min_sell_price,
    max_buy_price := r.max_buy_price, max_sell_price := r.max_sell_price,
    mid_price := r.mid_price, spread_abs := r.spread_abs,
    spread_pct := r.spread_pct,
    mid_price_change := osub r.mid_price prevMid,
    mid_price_pct_change := (opct r.mid_price prevMid).map (fun q => q * 100),
    spread_abs_change := osub r.spread_abs prevSabs,
    spread_pct_change := osub r.spread_pct prevSpct }

/-- The groupby-on-currency change computation over the sorted bucket rows. -/
def withChanges (bs : List SumBase) : List SummaryRow :=
  groupedMap (fun b => b.currency) (fun _ r => some r) chgOut (fun _ => none) bs

/-- The core of `p2p_summary` on an already-loaded frame: validates `by`,
aggregates avg/min/max price per `(bucket, side)`, pivots side into columns
(`KeyError` when a side occurs nowhere in the frame), computes mid price and
spreads, sorts by `(currency, date[, hour])` and adds the per-currency
change columns. -/
def p2p_summary_core (df : List Listing) (byArg : String) :
    Except PdError (List SummaryRow) :=
  if byArg = "day" ∨ byArg = "hour" then
    if hasSide df "BUY" && hasSide df "SELL" then
      .ok (withChanges ((sumKeys df byArg).map (sumBaseOf df byArg)))
    else .error .keyError
  else .error .invalidGranularity

/-- `p2p_summary(currency, currencies, by)`: rejects giving both selectors,
loads the master table filtered to `currencies` or the per-currency table
for `currency`, rejects giving neither, and runs the summary core.  The
loaders are external collaborators, passed as parameters. -/
def p2p_summary (loadCur : String → List Listing) (master : List Listing)
    (currency : Option String) (currencies : Option (List String))
    (byArg : String) : Except PdError (List SummaryRow) :=
  if currencies.isSome && currency.isSome then .error .invalidArgument
  else
    match currencies with
    | some cs => p2p_summary_core (master.filter (fun r => cs.contains r.currency)) byArg
    | none =>
      match currency with
      | some c => p2p_summary_core (loadCur c) byArg
      | none => .error .invalidArgument

/-! ## Top advertisers (`summary.py`, `top_advertisers`) -/

/-- The column set of the processed listing tables (§3 `ListingRecord`), in
schema order: the early return `df.head(0)` of `top_advertisers` carries
exactly the filtered input frame's columns, i.e. these. -/
def listingCols : List String :=
  ["scrape_datetime", "date", "currency", "side", "price", "min_amount",
   "max_amount", "finish_rate", "positive_rate", "merchant_name", "run_index"]

/-- One aggregated merchant row of `top_advertisers`. -/
structure AdvRow where
  merchant_name : String
  ads_count : Nat
  total_volume : ℚ
  avg_finish_rate : Option ℚ
  avg_positive_rate : Option ℚ
  currency : String
  side : Option String
deriving DecidableEq

/-- A result frame of `top_advertisers`: its column list plus its rows (the
empty early return carries the listing columns and no rows). -/
structure TopAdsFrame where
  cols : List String
  rows : List AdvRow
deriving DecidableEq

/-- The columns of the aggregated (non-empty-path) result: merchant name,
the four aggregates, the added `currency`, and `side` when a side filter was
given. -/
def advCols (side : Option String) : List String :=
  ["merchant_name", "ads_count", "total_volume", "avg_finish_rate",
   "avg_positive_rate", "currency"]
    ++ (match side with | none => [] | some _ => ["side"])

/-- The side / inclusive-date-range filter of `top_advertisers`. -/
def advFiltered (df : List Listing) (side : Option String)
    (start_date end_date : Option Nat) : List Listing :=
  df.filter (fun r =>
    (match side with | none => true | some s => r.side == s)
    && (match start_date with | none => true | some d => decide (d ≤ r.date))
    && (match end_date with | none => true | some d => decide (r.date ≤ d)))

/-- The groupby keys of `top_advertisers`: de-duplicated merchant names,
sorted ascending as pandas does. -/
def merchantKeys (df : List Listing) : List String :=
  List.insertionSort (· ≤ ·) ((df.map (fun r => r.merchant_name)).dedup)

/-- One merchant's aggregate row: ad count (count of `run_index`), summed
`max_amount`, mean finish and positive rates. -/
def advRowOf (df : List Listing) (currency : String) (side : Option String)
    (m : String) : AdvRow :=
  let g := df.filter (fun r => r.merchant_name == m)
  { merchant_name := m, ads_count := g.length,
    total_volume := (g.map (fun r => r.max_amount)).sum,
    avg_finish_rate := qmean (g.map (fun r => r.finish_rate)),
    avg_positive_rate := qmean (g.map (fun r => r.positive_rate)),
    currency := currency, side := side }

/-- Descending order on the chosen ranking metric. -/
def advMetricGE (metric : String) (a b : AdvRow) : Prop :=
  if metric = "volume" then b.total_volume ≤ a.total_volume
  else b.ads_count ≤ a.ads_count

instance : ∀ m, DecidableRel (advMetricGE m) := fun m a b =>
  inferInstanceAs (Decidable (if m = "volume" then b.total_volume ≤ a.total_volume
    else b.ads_count ≤ a.ads_count))

/-- `top_advertisers(currency, side, start_date, end_date, metric, n)`:
filters by side and inclusive date range; if the filtered frame is empty,
returns `df.head(0)` — zero rows with the *input* columns — before any
metric validation; otherwise groups by merchant, aggregates, validates
`metric` (`ValueError` outside `{'volume','ads'}`), sorts descending by the
metric and keeps the top `n`. -/
def top_advertisers (df : List Listing) (currency : String)
    (side : Option String) (start_date end_date : Option Nat)
    (metric : String) (n : Nat) : Except PdError TopAdsFrame :=
  if (advFiltered df side start_date end_date).isEmpty then
    .ok ⟨listingCols, []⟩
  else if metric = "volume" ∨ metric = "ads" then
    .ok ⟨advCols side,
      (List.insertionSort (advMetricGE metric)
        ((merchantKeys (advFiltered df side start_date end_date)).map
          (advRowOf (advFiltered df side start_date end_date) currency side))).take n⟩
  else .error .invalidMetric

/-! ## Price volatility (`summary.py`, `price_volatility`)

`np.log` and the rolling standard deviation produce irrational reals, so the
derived columns of this pipeline live in `Option ℝ` (and the definitions
below are `noncomputable`); a cell holds `none` exactly when the float
computation yields no finite value.  The claims about this function concern
only which cells are defined, which never inspects the real payloads. -/

/-- The sorted bucket rows of `price_volatility`: same grouping, pivot and
`(currency, date[, hour])` sort as the summary module, with
`mid_price = (avg_buy + avg_sell) / 2`. -/
structure VolBase where
  date : Nat
  hour : Option Nat
  currency : String
  avg_buy_price : Option ℚ
  avg_sell_price : Option ℚ
  mid_price : Option ℚ
deriving DecidableEq

/-- One bucket row of `price_volatility` before the log-return columns. -/
def volBaseOf (df : List Listing) (byArg : String)
    (k : Nat × Option Nat × String) : VolBase :=
  let abuy := qmean (sumPrices df byArg "BUY" k)
  let asell := qmean (sumPrices df byArg "SELL" k)
  { date := k.1, hour := k.2.1, currency := k.2.2, avg_buy_price := abuy,
    avg_sell_price := asell, mid_price := ohalf (oadd abuy asell) }

/-- `np.log` of a mid-price cell: a finite value exactly when the cell holds
a positive number (`log 0 = -inf`, `log` of a negative float is `NaN`). -/
noncomputable def ologQ (x : Option ℚ) : Option ℝ :=
  match x with
  | some q => if 0 < q then some (Real.log (q : ℝ)) else none
  | none => none

/-- Subtraction of real cells, `NaN` propagating. -/
def osubR : Option ℝ → Option ℝ → Option ℝ
  | some a, some b => some (a - b)
  | _, _ => none

/-- Sample standard deviation (`ddof = 1`) of a list of reals. -/
noncomputable def sampleStd (l : List ℝ) : ℝ :=
  Real.sqrt ((l.map (fun x => (x - l.sum / l.length) ^ 2)).sum
    / ((l.length : ℝ) - 1))

/-- pandas `rolling(window=w).std()` over the series `lrs` of this group's
log-returns up to and including the current row: the trailing window is the
last `w` entries; the result is a value exactly when at least `w` rows exist,
none of the `w` windowed entries is missing (`min_periods` defaults to the
window size) and `w ≥ 2` (`ddof = 1` makes the std of a single observation
`NaN`). -/
noncomputable def rollingStd (w : Nat) (lrs : List (Option ℝ)) : Option ℝ :=
  if 2 ≤ w ∧ w ≤ lrs.length
      ∧ (lrs.drop (lrs.length - w)).all (fun x => x.isSome) then
    some (sampleStd ((lrs.drop (lrs.length - w)).filterMap id))
  else none

/-- A row of `price_volatility` after log price / log return / volatility. -/
structure VolMid where
  base : VolBase
  log_price : Option ℝ
  log_return : Option ℝ

/-- Output row of `price_volatility`. -/
structure VolRow where
  date : Nat
  hour : Option Nat
  currency : String
  avg_buy_price : Option ℚ
  avg_sell_price : Option ℚ
  mid_price : Option ℚ
  log_price : Option ℝ
  log_return : Option ℝ
  volatility : Option ℝ

/-- `log_return = log_price - previous log_price` within the currency
(`NaN` on the first row of a currency). -/
noncomputable def lrOut (prev : Option (Option ℝ)) (b : VolBase) : VolMid :=
  { base := b, log_price := ologQ b.mid_price,
    log_return :=
      match prev with
      | none => none
      | some plp => osubR (ologQ b.mid_price) plp }

/-- The `groupby("currency")["log_price"].diff()` stage. -/
noncomputable def volStage1 (bs : List VolBase) : List VolMid :=
  groupedMap (fun b => b.currency) (fun _ b => some (ologQ b.mid_price))
    lrOut (fun _ => none) bs

/-- Attach the rolling volatility given this currency's earlier log-returns. -/
noncomputable def volOut (w : Nat) (hist : List (Option ℝ)) (m : VolMid) :
    VolRow :=
  { date := m.base.date, hour := m.base.hour, currency := m.base.currency,
    avg_buy_price := m.base.avg_buy_price,
    avg_sell_price := m.base.avg_sell_price, mid_price := m.base.mid_price,
    log_price := m.log_price, log_return := m.log_return,
    volatility := rollingStd w (hist ++ [m.log_return]) }

/-- The `groupby("currency")["log_return"].rolling(window).std()` stage. -/
noncomputable def volStage2 (w : Nat) (ms : List VolMid) : List VolRow :=
  groupedMap (fun m => m.base.currency)
    (fun hist m => hist ++ [m.log_return]) (volOut w) (fun _ => []) ms

/-- `price_volatility(currency, by, window)` on an already-loaded frame:
validates `by`, aggregates mean price per bucket and side, pivots
(`KeyError` when a side occurs nowhere), computes mid price, sorts by
`(currency, date[, hour])`, then per currency takes log mid price, its first
difference and the rolling sample standard deviation over `window` rows. -/
noncomputable def price_volatility_core (df : List Listing) (byArg : String)
    (w : Nat) : Except PdError (List VolRow) :=
  if byArg = "day" ∨ byArg = "hour" then
    if hasSide df "BUY" && hasSide df "SELL" then
      .ok (volStage2 w (volStage1 ((sumKeys df byArg).map (volBaseOf df byArg))))
    else .error .keyError
  else .error .invalidGranularity

/-! ## Helper lemmas about the embedded operations -/

theorem osub_none (x : Option ℚ) : osub x none = none := by
  cases x <;> rfl

theorem opct_none (x : Option ℚ) : opct x none = none := by
  cases x <;> rfl

theorem odivQ_zero (x : Option ℚ) : odivQ x (some 0) = none := by
  cases x <;> simp [odivQ]

/-- Every output of a grouped transform is `out` of some state and some
input row. -/
theorem mem_groupedMap {β γ σ : Type} (key : β → String) (upd : σ → β → σ)
    (out : σ → β → γ) (st : String → σ) (l : List β) (g : γ)
    (hg : g ∈ groupedMap key upd out st l) : ∃ s b, b ∈ l ∧ g = out s b := by
  induction l generalizing st with
  | nil => simp [groupedMap] at hg
  | cons r rs ih =>
    rw [groupedMap] at hg
    rcases List.mem_cons.mp hg with h | h
    · exact ⟨st (key r), r, List.mem_cons_self r rs, h⟩
    · rcases ih _ h with ⟨s, b, hb, hgb⟩
      exact ⟨s, b, List.mem_cons_of_mem r hb, hgb⟩

/-- Over a list whose rows all carry key `c`, the per-key state threading is
a plain fold. -/
theorem stApply_const {β σ : Type} (key : β → String) (upd : σ → β → σ)
    (st : String → σ) (l : List β) (c : String) (h : ∀ r ∈ l, key r = c) :
    stApply key upd st l c = l.foldl upd (st c) := by
  induction l generalizing st with
  | nil => rfl
  | cons r rs ih =>
    have hr : key r = c := h r (List.mem_cons_self r rs)
    rw [stApply, List.foldl_cons,
      ih _ (fun x hx => h x (List.mem_cons_of_mem r hx))]
    congr 1
    show (if c = key r then upd (st (key r)) r else st c) = upd (st c) r
    rw [if_pos hr.symm, hr]

/-- Folding the "remember this row's log price" update of the diff stage
yields the last row's log price. -/
theorem foldl_lastLog (l : List VolBase) (init : Option (Option ℝ)) :
    l.foldl (fun _ b => some (ologQ b.mid_price)) init
      = match l.getLast? with
        | none => init
        | some p => some (ologQ p.mid_price) := by
  induction l generalizing init with
  | nil => rfl
  | cons r rs ih =>
    rw [List.foldl_cons, ih]
    cases rs with
    | nil => rfl
    | cons x xs =>
      rw [List.getLast?_cons_cons]
      have hy : ∃ y, (x :: xs).getLast? = some y := by
        cases hxs : (x :: xs).getLast? with
        | none => exact absurd hxs (by simp)
        | some y => exact ⟨y, rfl⟩
      rcases hy with ⟨y, hy⟩
      rw [hy]

/-- Folding the "append this row's log return" update of the rolling stage
accumulates the log-return column. -/
theorem foldl_appendLr (l : List VolMid) (acc : List (Option ℝ)) :
    l.foldl (fun h m => h ++ [m.log_return]) acc
      = acc ++ l.map (fun x => x.log_return) := by
  induction l generalizing acc with
  | nil => simp
  | cons r rs ih => simp [List.foldl_cons, ih]

/-- Successful runs of `price_volatility` produce exactly the two-stage
grouped pipeline over the sorted bucket rows. -/
theorem price_volatility_core_ok (df : List Listing) (byArg : String)
    (w : Nat) (out : List VolRow)
    (hok : price_volatility_core df byArg w = .ok out) :
    out = volStage2 w (volStage1 ((sumKeys df byArg).map (volBaseOf df byArg))) := by
  unfold price_volatility_core at hok
  by_cases h1 : byArg = "day" ∨ byArg = "hour"
  · rw [if_pos h1] at hok
    by_cases h2 : (hasSide df "BUY" && hasSide df "SELL") = true
    · rw [if_pos h2] at hok
      exact (Except.ok.inj hok).symm
    · rw [if_neg h2] at hok; simp at hok
  · rw [if_neg h1] at hok; simp at hok

/-- Indexing the log-return stage over a single-currency list: row `i`'s
previous log price is the last of the first `i` rows. -/
theorem volStage1_get?_const (bs : List VolBase) (c : String)
    (h : ∀ b ∈ bs, b.currency = c) (i : Nat) :
    (volStage1 bs).get? i = (bs.get? i).map (fun b =>
      lrOut (match (bs.take i).getLast? with
             | none => none
             | some p => some (ologQ p.mid_price)) b) := by
  rw [volStage1, groupedMap_get?]
  rcases hbi : bs.get? i with _ | b
  · rfl
  · have hkb : b.currency = c := h b (List.get?_mem hbi)
    simp only [Option.map_some']
    congr 1
    rw [hkb, stApply_const _ _ _ _ c
      (fun x hx => h x (List.take_subset i bs hx)), foldl_lastLog]

/-- Indexing the rolling-std stage over a single-currency list: row `i`'s
history is the log-returns of the first `i` rows. -/
theorem volStage2_get?_const (w : Nat) (ms : List VolMid) (c : String)
    (h : ∀ m ∈ ms, m.base.currency = c) (i : Nat) :
    (volStage2 w ms).get? i = (ms.get? i).map (fun m =>
      volOut w ((ms.take i).map (fun x => x.log_return)) m) := by
  rw [volStage2, groupedMap_get?]
  rcases hmi : ms.get? i with _ | m
  · rfl
  · have hkm : m.base.currency = c := h m (List.get?_mem hmi)
    simp only [Option.map_some']
    congr 1
    rw [hkm, stApply_const _ _ _ _ c
      (fun x hx => h x (List.take_subset i ms hx)), foldl_appendLr,
      List.nil_append]

/-- Successful runs of `_p2p_spread_core` produce exactly the per-key rows. -/
theorem p2p_spread_core_ok (df : List Listing) (c byArg : String)
    (out : List SpreadRow) (hok : p2p_spread_core df c byArg = .ok out) :
    out = (spreadKeys df byArg).map (spreadRowOf df c) := by
  unfold p2p_spread_core at hok
  by_cases h1 : byArg = "day" ∨ byArg = "hour"
  · rw [if_pos h1] at hok
    by_cases h2 : (hasSide df "BUY" && hasSide df "SELL") = true
    · rw [if_pos h2] at hok
      exact (Except.ok.inj hok).symm
    · rw [if_neg h2] at hok; simp at hok
  · rw [if_neg h1] at hok; simp at hok

/-- Every row of a successful `_p2p_spread_core` run carries the requested
currency (the core writes the `currency` column itself). -/
theorem p2p_spread_core_currency (df : List Listing) (c byArg : String)
    (out : List SpreadRow) (hok : p2p_spread_core df c byArg = .ok out)
    (r : SpreadRow) (hr : r ∈ out) : r.currency = c := by
  rw [p2p_spread_core_ok df c byArg out hok] at hr
  rcases List.mem_map.mp hr with ⟨k, -, hkr⟩
  subst hkr
  rfl

/-- Successful runs of `fiat_comparison` produce exactly the per-key rows of
the filtered frame. -/
theorem fiat_comparison_ok (master : List Listing) (cs : List String)
    (out : List FiatRow) (hok : fiat_comparison master cs = .ok out) :
    out = (fiatKeys (master.filter (fun r => cs.contains r.currency))).map
      (fiatRowOf (master.filter (fun r => cs.contains r.currency))) := by
  unfold fiat_comparison at hok
  by_cases h2 : (hasSide (master.filter (fun r => cs.contains r.currency)) "BUY"
      && hasSide (master.filter (fun r => cs.contains r.currency)) "SELL") = true
  · rw [if_pos h2] at hok
    exact (Except.ok.inj hok).symm
  · rw [if_neg h2] at hok; simp at hok

/-- Successful runs of the summary core produce exactly the change-annotated
sorted bucket rows. -/
theorem p2p_summary_core_ok (df : List Listing) (byArg : String)
    (out : List SummaryRow) (hok : p2p_summary_core df byArg = .ok out) :
    out = withChanges ((sumKeys df byArg).map (sumBaseOf df byArg)) := by
  unfold p2p_summary_core at hok
  by_cases h1 : byArg = "day" ∨ byArg = "hour"
  · rw [if_pos h1] at hok
    by_cases h2 : (hasSide df "BUY" && hasSide df "SELL") = true
    · rw [if_pos h2] at hok
      exact (Except.ok.inj hok).symm
    · rw [if_neg h2] at hok; simp at hok
  · rw [if_neg h1] at hok; simp at hok

/-- The summary core never raises the selector validation error: its own
failure modes are the granularity `ValueError` and the pivot `KeyError`. -/
theorem p2p_summary_core_ne_invalidArgument (df : List Listing)
    (byArg : String) :
    p2p_summary_core df byArg ≠ .error .invalidArgument := by
  unfold p2p_summary_core
  by_cases h1 : byArg = "day" ∨ byArg = "hour"
  · rw [if_pos h1]
    by_cases h2 : (hasSide df "BUY" && hasSide df "SELL") = true
    · rw [if_pos h2]; simp
    · rw [if_neg h2]; simp
  · rw [if_neg h1]; simp

/-! ## Claims about the summary module -/

/-- **C6.**  `p2p_summary` fails with the `InvalidArgument` validation error
exactly when both the `currency` and `currencies` selectors are given, or
when neither is given; in every other case no such error is raised (other
failures — granularity, pivot `KeyError` — are distinct conditions). -/
theorem p2p_summary_invalid_argument_iff (loadCur : String → List Listing)
    (master : List Listing) (currency : Option String)
    (currencies : Option (List String)) (byArg : String) :
    p2p_summary loadCur master currency currencies byArg
        = .error .invalidArgument
      ↔ ((currencies.isSome ∧ currency.isSome)
          ∨ (currencies = none ∧ currency = none)) := by
  unfold p2p_summary
  rcases currencies with _ | cs <;> rcases currency with _ | c <;>
    simp [p2p_summary_core_ne_invalidArgument]

/-- **C7.**  `p2p_summary` computes its change columns within each
currency's own sorted sequence: a row preceded by no row of the same
currency has `NaN` in all four change columns (in particular, with a single
bucket per currency — pairwise-distinct row currencies — every row has `NaN`
`mid_price_change` and `mid_price_pct_change`), and the rows of a currency
are computed from that currency's bucket rows alone. -/
theorem p2p_summary_changes_per_currency (df : List Listing) (byArg : String)
    (out : List SummaryRow) (hok : p2p_summary_core df byArg = .ok out) :
    (∀ i r, out.get? i = some r →
        (∀ j q, j < i → out.get? j = some q → q.currency ≠ r.currency) →
        r.mid_price_change = none ∧ r.mid_price_pct_change = none
          ∧ r.spread_abs_change = none ∧ r.spread_pct_change = none)
    ∧ (List.Pairwise (fun a b => a.currency ≠ b.currency) out →
        ∀ r ∈ out, r.mid_price_change = none ∧ r.mid_price_pct_change = none
          ∧ r.spread_abs_change = none ∧ r.spread_pct_change = none)
    ∧ (∀ c, out.filter (fun r => r.currency == c)
        = withChanges (((sumKeys df byArg).map (sumBaseOf df byArg)).filter
            (fun b => b.currency == c))) := by
  have hout := p2p_summary_core_ok df byArg out hok
  set bs := (sumKeys df byArg).map (sumBaseOf df byArg) with hbs
  have h1 : ∀ i r, out.get? i = some r →
      (∀ j q, j < i → out.get? j = some q → q.currency ≠ r.currency) →
      r.mid_price_change = none ∧ r.mid_price_pct_change = none
        ∧ r.spread_abs_change = none ∧ r.spread_pct_change = none := by
    intro i r hr hprev
    rw [hout, withChanges, groupedMap_get?] at hr
    rcases Option.map_eq_some'.mp hr with ⟨b, hb, hbr⟩
    have hnone : stApply (fun b => b.currency) (fun _ r => some r)
        (fun _ => none) (bs.take i) b.currency = none := by
      apply stApply_of_not_mem
      intro x hx
      rcases List.mem_iff_get?.mp hx with ⟨j, hj⟩
      have hjlen : j < (bs.take i).length := by
        by_contra hge
        rw [List.get?_eq_none.mpr (Nat.le_of_not_lt hge)] at hj
        cases hj
      have hji : j < i := lt_of_lt_of_le hjlen (by
        rw [List.length_take]; exact Nat.min_le_left _ _)
      have hbsj : bs.get? j = some x := by
        rw [← List.get?_take hji]; exact hj
      have houtj : out.get? j = some (chgOut (stApply (fun b => b.currency)
          (fun _ r => some r) (fun _ => none) (bs.take j) x.currency) x) := by
        rw [hout, withChanges, groupedMap_get?, hbsj]; rfl
      have := hprev j _ hji houtj
      simpa [chgOut, ← hbr] using this
    rw [← hbr, hnone]
    simp [chgOut, osub_none, opct_none]
  refine ⟨h1, ?_, ?_⟩
  · intro hpw r hrmem
    rcases List.mem_iff_get?.mp hrmem with ⟨i, hi⟩
    apply h1 i r hi
    intro j q hj hq
    rcases List.get?_eq_some.mp hi with ⟨hilen, hig⟩
    rcases List.get?_eq_some.mp hq with ⟨hjlen, hjg⟩
    have := List.pairwise_iff_get.mp hpw ⟨j, hjlen⟩ ⟨i, hilen⟩ hj
    rw [hig, hjg] at this
    exact this
  · intro c
    rw [hout, withChanges, withChanges]
    exact groupedMap_filter (fun b => b.currency) (fun _ r => some r) chgOut
      (fun g => g.currency) (fun s r => rfl) c (fun _ => none) (fun _ => none)
      rfl bs

/-- **C2 (amended).**  In every row produced by the spread computation
(`_p2p_spread_core`, `fiat_comparison`, `p2p_summary`),
`spread_abs = |avg_sell_price - avg_buy_price|` and
`spread_pct = spread_abs / mid * 100` with `mid = (avg_sell + avg_buy) / 2`;
`spread_pct` carries no finite value in any row where `mid = 0` (division by
zero), while `spread_abs` is missing only when a side's average is missing —
at `mid = 0` with both sides present it is the defined value
`|avg_sell - avg_buy|`, not `NaN`. -/
theorem spread_formulas (df master : List Listing) (c byArg : String)
    (cs : List String) :
    (∀ out, p2p_spread_core df c byArg = .ok out → ∀ r ∈ out,
        r.spread_abs = oabs (osub r.avg_sell_price r.avg_buy_price)
        ∧ r.spread_pct = (odivQ r.spread_abs
            (ohalf (oadd r.avg_sell_price r.avg_buy_price))).map
              (fun q => q * 100)
        ∧ (ohalf (oadd r.avg_sell_price r.avg_buy_price) = some 0 →
            r.spread_pct = none))
    ∧ (∀ out, fiat_comparison master cs = .ok out → ∀ r ∈ out,
        r.spread_abs = oabs (osub r.avg_sell_price r.avg_buy_price)
        ∧ r.spread_pct = (odivQ r.spread_abs
            (ohalf (oadd r.avg_sell_price r.avg_buy_price))).map
              (fun q => q * 100)
        ∧ (ohalf (oadd r.avg_sell_price r.avg_buy_price) = some 0 →
            r.spread_pct = none))
    ∧ (∀ out, p2p_summary_core df byArg = .ok out → ∀ r ∈ out,
        r.mid_price = ohalf (oadd r.avg_buy_price r.avg_sell_price)
        ∧ r.spread_abs = oabs (osub r.avg_sell_price r.avg_buy_price)
        ∧ r.spread_pct = (odivQ r.spread_abs r.mid_price).map
            (fun q => q * 100)
        ∧ (r.mid_price = some 0 → r.spread_pct = none)) := by
  refine ⟨?_, ?_, ?_⟩
  · intro out hok r hr
    rw [p2p_spread_core_ok df c byArg out hok] at hr
    rcases List.mem_map.mp hr with ⟨k, -, hkr⟩
    subst hkr
    refine ⟨rfl, rfl, fun h0 => ?_⟩
    simp only [spreadRowOf] at h0 ⊢
    rw [h0, odivQ_zero]
    rfl
  · intro out hok r hr
    rw [fiat_comparison_ok master cs out hok] at hr
    rcases List.mem_map.mp hr with ⟨k, -, hkr⟩
    subst hkr
    refine ⟨rfl, rfl, fun h0 => ?_⟩
    simp only [fiatRowOf] at h0 ⊢
    rw [h0, odivQ_zero]
    rfl
  · intro out hok r hr
    rw [p2p_summary_core_ok df byArg out hok, withChanges] at hr
    rcases mem_groupedMap _ _ _ _ _ _ hr with ⟨s, b, hb, hgb⟩
    rcases List.mem_map.mp hb with ⟨k, -, hkb⟩
    subst hkb
    subst hgb
    refine ⟨rfl, rfl, rfl, fun h0 => ?_⟩
    simp only [chgOut, sumBaseOf] at h0 ⊢
    rw [h0, odivQ_zero]
    rfl

/-- **C8.**  `official_premium`: any granularity other than `'day'` fails
with the `NotImplemented` condition; on success the output dates are exactly
the dates present in both the daily P2P aggregate and the official rate
table for the target currency (dates without an official rate are silently
dropped), and every output row satisfies
`premium_abs = |p2p_mid - official_rate|` and
`premium_pct = (p2p_mid / official_rate - 1) * 100`. -/
theorem official_premium_spec (load : String → List Listing)
    (bcb : List RateRow) (currency byArg : String) :
    (byArg ≠ "day" →
        official_premium load bcb currency byArg = .error .notImplemented)
    ∧ (∀ out daily,
        official_premium load bcb currency "day" = .ok out →
        p2p_spread_core (load currency) currency "day" = .ok daily →
        (∀ r ∈ out,
            r.premium_abs
              = oabs (osub r.p2p_avg_price (some r.official_exchange_rate))
            ∧ r.premium_pct
              = (odivQ r.p2p_avg_price (some r.official_exchange_rate)).map
                  (fun q => (q - 1) * 100))
        ∧ (∀ d : Nat,
            (∃ r ∈ out, r.date = d)
              ↔ ((∃ dr ∈ daily, dr.date = d)
                  ∧ ∃ br ∈ bcb, br.currency = currency ∧ br.date = d))) := by
  constructor
  · intro hby
    unfold official_premium
    rw [if_pos hby]
  · intro out daily hok hdaily
    unfold official_premium at hok
    rw [if_neg (fun h => h rfl), hdaily] at hok
    have hout : out = daily.flatMap (fun dr =>
        ((bcb.filter (fun br => br.currency == currency)).filter
            (fun br => br.date == dr.date && br.currency == dr.currency)).map
          (premiumRowOf dr)) := (Except.ok.inj hok).symm
    constructor
    · intro r hr
      rw [hout] at hr
      rcases List.mem_flatMap.mp hr with ⟨dr, -, hrm⟩
      rcases List.mem_map.mp hrm with ⟨br, -, hbr⟩
      subst hbr
      exact ⟨rfl, rfl⟩
    · intro d
      constructor
      · rintro ⟨r, hr, hrd⟩
        rw [hout] at hr
        rcases List.mem_flatMap.mp hr with ⟨dr, hdr, hrm⟩
        rcases List.mem_map.mp hrm with ⟨br, hbrf, hbr⟩
        simp only [List.mem_filter, Bool.and_eq_true, beq_iff_eq] at hbrf
        have hdrd : dr.date = d := by rw [← hrd, ← hbr]; rfl
        exact ⟨⟨dr, hdr, hdrd⟩, br, hbrf.1.1, hbrf.1.2,
          by rw [hbrf.2.1, hdrd]⟩
      · rintro ⟨⟨dr, hdr, hdrd⟩, br, hbrm, hbrc, hbrd⟩
        have hcur : dr.currency = currency :=
          p2p_spread_core_currency _ _ _ _ hdaily dr hdr
        refine ⟨premiumRowOf dr br, ?_, ?_⟩
        · rw [hout]
          refine List.mem_flatMap.mpr ⟨dr, hdr, List.mem_map.mpr ⟨br, ?_, rfl⟩⟩
          simp only [List.mem_filter, Bool.and_eq_true, beq_iff_eq]
          exact ⟨⟨hbrm, hbrc⟩, by rw [hbrd, hdrd], by rw [hbrc, hcur]⟩
        · show dr.date = d
          exact hdrd

/-- **C4 (amended).**  In `price_volatility` with window `w ≥ 2`, for every
currency the `volatility` cell is `NaN` for the first `w` chronological rows
of that currency — one more than the claimed `w - 1`, because the first
row's log-return is itself `NaN` and occupies a slot of the first full
window — and holds a concrete standard-deviation value from row `w + 1`
onward provided the currency's mid prices up to that row are positive; the
rolling window never mixes rows of different currencies: the rows of
currency `c` equal the pipeline run on the currency-`c` bucket rows alone. -/
theorem price_volatility_window (df : List Listing) (byArg : String)
    (w : Nat) (out : List VolRow)
    (hok : price_volatility_core df byArg w = .ok out) (c : String) :
    (∀ i r, i < w →
        (out.filter (fun x => x.currency == c)).get? i = some r →
        r.volatility = none)
    ∧ (∀ i r, 2 ≤ w → w ≤ i →
        (out.filter (fun x => x.currency == c)).get? i = some r →
        (∀ j q, j ≤ i →
            (out.filter (fun x => x.currency == c)).get? j = some q →
            ∃ m, q.mid_price = some m ∧ 0 < m) →
        r.volatility ≠ none)
    ∧ out.filter (fun x => x.currency == c)
        = volStage2 w (volStage1
            (((sumKeys df byArg).map (volBaseOf df byArg)).filter
              (fun b => b.currency == c))) := by
  have hout := price_volatility_core_ok df byArg w out hok
  set bs := (sumKeys df byArg).map (volBaseOf df byArg) with hbsdef
  set fb := bs.filter (fun b => b.currency == c) with hfbdef
  have hstage2f : (volStage2 w (volStage1 bs)).filter
      (fun x => x.currency == c)
      = volStage2 w ((volStage1 bs).filter (fun m => m.base.currency == c)) := by
    rw [volStage2, volStage2]
    exact groupedMap_filter (fun m => m.base.currency)
      (fun hist m => hist ++ [m.log_return]) (volOut w)
      (fun x => x.currency) (fun _ _ => rfl) c (fun _ => []) (fun _ => [])
      rfl (volStage1 bs)
  have hstage1f : (volStage1 bs).filter (fun m => m.base.currency == c)
      = volStage1 fb := by
    rw [volStage1, volStage1]
    exact groupedMap_filter (fun b => b.currency)
      (fun _ b => some (ologQ b.mid_price)) lrOut
      (fun m => m.base.currency) (fun _ _ => rfl) c (fun _ => none)
      (fun _ => none) rfl bs
  set ms := volStage1 fb with hmsdef
  have hiso : out.filter (fun x => x.currency == c) = volStage2 w ms := by
    rw [hout, hstage2f, hstage1f]
  have hfb : ∀ b ∈ fb, b.currency = c := by
    intro b hb
    simpa using (List.mem_filter.mp hb).2
  have hms : ∀ m ∈ ms, m.base.currency = c := by
    intro m hm
    rcases mem_groupedMap _ _ _ _ _ _ hm with ⟨s, b, hb, hmb⟩
    subst hmb
    exact hfb b hb
  have hcorr : ∀ i, (out.filter (fun x => x.currency == c)).get? i
      = (ms.get? i).map (fun m =>
          volOut w ((ms.take i).map (fun x => x.log_return)) m) := by
    intro i
    rw [hiso]
    exact volStage2_get?_const w ms c hms i
  have hms_get : ∀ i, ms.get? i = (fb.get? i).map (fun b =>
      lrOut (match (fb.take i).getLast? with
             | none => none | some p => some (ologQ p.mid_price)) b) :=
    volStage1_get?_const fb c hfb
  have hlr0 : ∀ m, ms.get? 0 = some m → m.log_return = none := by
    intro m hm
    rw [hms_get 0] at hm
    rcases Option.map_eq_some'.mp hm with ⟨b, -, hbm⟩
    subst hbm
    rfl
  have hlrj : ∀ j m, 1 ≤ j → ms.get? j = some m →
      (∀ t b, t ≤ j → fb.get? t = some b →
        ∃ x, b.mid_price = some x ∧ 0 < x) →
      ∃ v, m.log_return = some v := by
    intro j m hj hm hpos
    rw [hms_get j] at hm
    rcases Option.map_eq_some'.mp hm with ⟨b, hb, hbm⟩
    rcases List.get?_eq_some.mp hb with ⟨hjlen, -⟩
    have htlen : (fb.take j).length = j := by
      rw [List.length_take]
      exact Nat.min_eq_left (Nat.le_of_lt hjlen)
    have hlast : (fb.take j).getLast? = fb.get? (j - 1) := by
      rw [List.getLast?_eq_get?, htlen]
      exact List.get?_take (by omega)
    have hprevlt : j - 1 < fb.length := by omega
    rcases List.get?_eq_some.mpr ⟨hprevlt, rfl⟩ with hbp
    set bprev := fb.get ⟨j - 1, hprevlt⟩ with hbprev
    rcases hpos j b (le_refl j) hb with ⟨x, hx, hx0⟩
    rcases hpos (j - 1) bprev (by omega) hbp with ⟨y, hy, hy0⟩
    rw [hlast, hbp] at hbm
    subst hbm
    show ∃ v, osubR (ologQ b.mid_price) (ologQ bprev.mid_price) = some v
    rw [hx, hy]
    simp only [ologQ]
    rw [if_pos hx0, if_pos hy0]
    exact ⟨_, rfl⟩
  have hLfull : ∀ i m, ms.get? i = some m →
      (ms.take i).map (fun x => x.log_return) ++ [m.log_return]
        = (ms.take (i + 1)).map (fun x => x.log_return) := by
    intro i m hm
    rw [List.take_succ, ← List.get?_eq_getElem?, hm]
    simp
  refine ⟨?_, ?_, hiso⟩
  · intro i r hiw hr
    rw [hcorr i] at hr
    rcases Option.map_eq_some'.mp hr with ⟨m, hm, hmr⟩
    rcases List.get?_eq_some.mp hm with ⟨hilen, -⟩
    subst hmr
    show rollingStd w
      ((ms.take i).map (fun x => x.log_return) ++ [m.log_return]) = none
    rw [hLfull i m hm]
    set L := (ms.take (i + 1)).map (fun x => x.log_return) with hLdef
    have hLlen : L.length = i + 1 := by
      rw [hLdef, List.length_map, List.length_take]
      exact Nat.min_eq_left (by omega)
    rw [rollingStd]
    by_cases hcase : i + 1 < w
    · rw [if_neg (by rw [hLlen]; omega)]
    · have hiweq : i + 1 = w := by omega
      rw [if_neg ?_]
      rintro ⟨-, -, hall⟩
      have h0lt : 0 < ms.length := by omega
      rcases List.get?_eq_some.mpr ⟨h0lt, rfl⟩ with hm0
      have hL0 : L.get? 0 = some none := by
        rw [hLdef, List.get?_map, List.get?_take (by omega : 0 < i + 1), hm0]
        simp only [Option.map_some']
        exact congrArg some (hlr0 _ hm0)
      have hmemL : (none : Option ℝ) ∈ L.drop (L.length - w) := by
        rw [hLlen, hiweq, Nat.sub_self, List.drop_zero]
        exact List.get?_mem hL0
      have := List.all_eq_true.mp hall (none : Option ℝ) hmemL
      simp at this
  · intro i r hw2 hwi hr hpos
    have hposF : ∀ t b, t ≤ i → fb.get? t = some b →
        ∃ x, b.mid_price = some x ∧ 0 < x := by
      intro t b ht hb
      have houtt : (out.filter (fun x => x.currency == c)).get? t
          = some (volOut w ((ms.take t).map (fun x => x.log_return))
              (lrOut (match (fb.take t).getLast? with
                      | none => none
                      | some p => some (ologQ p.mid_price)) b)) := by
        rw [hcorr t, hms_get t, hb]
        rfl
      rcases hpos t _ ht houtt with ⟨x, hx, hx0⟩
      exact ⟨x, hx, hx0⟩
    rw [hcorr i] at hr
    rcases Option.map_eq_some'.mp hr with ⟨m, hm, hmr⟩
    rcases List.get?_eq_some.mp hm with ⟨hilen, -⟩
    subst hmr
    show rollingStd w
      ((ms.take i).map (fun x => x.log_return) ++ [m.log_return]) ≠ none
    rw [hLfull i m hm]
    set L := (ms.take (i + 1)).map (fun x => x.log_return) with hLdef
    have hLlen : L.length = i + 1 := by
      rw [hLdef, List.length_map, List.length_take]
      exact Nat.min_eq_left (by omega)
    have hall : (L.drop (L.length - w)).all (fun x => x.isSome) = true := by
      rw [List.all_eq_true]
      intro x hx
      rcases List.mem_iff_get?.mp hx with ⟨t, ht⟩
      rw [List.get?_drop] at ht
      have hnlt : L.length - w + t < L.length := by
        rcases List.get?_eq_some.mp ht with ⟨hlt', -⟩
        have := List.get?_eq_some.mp ht
        omega
      set n := L.length - w + t with hndef
      have hn1 : 1 ≤ n := by rw [hndef, hLlen]; omega
      have hni : n < i + 1 := by omega
      have hLn : L.get? n = (ms.get? n).map (fun x => x.log_return) := by
        rw [hLdef, List.get?_map, List.get?_take hni]
      rw [hLn] at ht
      rcases Option.map_eq_some'.mp ht with ⟨mn, hmn, hmnx⟩
      rcases hlrj n mn hn1 hmn
          (fun t' b' ht' hb' => hposF t' b' (by omega) hb') with ⟨v, hv⟩
      rw [← hmnx, hv]
      rfl
    rw [rollingStd, if_pos ⟨hw2, by rw [hLlen]; omega, hall⟩]
    simp

/-! ## Concrete inputs used by counterexamples and witnesses -/

/-- A concrete listing with the given date, hour, currency, side, price,
`max_amount` and merchant; the remaining columns are fixed values. -/
def mkListing (d h : Nat) (c sd : String) (p ma : ℚ) (m : String) : Listing :=
  { date := d, scrape_hour := h, currency := c, side := sd, price := p,
    min_amount := 0, max_amount := ma, merchant_name := m,
    finish_rate := 1, positive_rate := 1, run_index := 0 }

/-- Two listings in one `(date, hour)` bucket whose `max_amount`s sum to a
negative number: the `denom > 0` guard of `_order_imbalance_core` leaves
`imbalance = 0` there although the denominator is nonzero. -/
def imbCexDf : List Listing :=
  [mkListing 1 0 "ARS" "BUY" 100 (-3) "A",
   mkListing 1 0 "ARS" "SELL" 100 1 "B"]

/-- **C1, counterexample.**  On a bucket with `buy_volume = -3`,
`sell_volume = 1` the denominator `-2` is nonzero, yet the code's
`denom > 0` guard leaves `imbalance = 0`, not the claimed ratio
`(-3 - 1) / (-3 + 1) = 2`. -/
theorem order_imbalance_ratio_cex :
    (order_imbalance_core imbCexDf "ARS" "hour").map
        (List.map (fun r => (r.buy_volume, r.sell_volume, r.imbalance)))
      = Except.ok [(-3, 1, 0)]
    ∧ (-3 : ℚ) + 1 ≠ 0
    ∧ (0 : ℚ) ≠ ((-3 : ℚ) - 1) / ((-3 : ℚ) + 1) := by
  refine ⟨?_, by norm_num, by norm_num⟩
  have hkeys : imbKeys imbCexDf = [(1, 0)] := by decide
  have hbv : sideVolume imbCexDf "BUY" (1, 0) = -3 := by
    simp [sideVolume, imbCexDf, mkListing]
  have hsv : sideVolume imbCexDf "SELL" (1, 0) = 1 := by
    simp [sideVolume, imbCexDf, mkListing]
  have hrow : imbRowOf imbCexDf "ARS" (1, 0)
      = { date := 1, hour := 0, buy_volume := -3, sell_volume := 1,
          currency := "ARS", imbalance := 0 } := by
    simp only [imbRowOf, hbv, hsv]
    norm_num
  have hside : (hasSide imbCexDf "BUY" && hasSide imbCexDf "SELL") = true := by
    decide
  unfold order_imbalance_core
  rw [if_neg (fun h => h rfl), if_pos hside, hkeys]
  simp [hrow, Except.map]

/-- **C1 (amended).**  For every bucket row produced by
`_order_imbalance_core`: `imbalance` is the guarded ratio — equal to
`(buy_volume - sell_volume) / (buy_volume + sell_volume)` when
`buy_volume + sell_volume > 0` and exactly `0` otherwise (in particular
exactly `0`, never `NaN`, when the sum is `0`); under the precondition that
every listing's `max_amount` is nonnegative the guard coincides with
`buy_volume + sell_volume ≠ 0` and `imbalance` lies in `[-1, 1]`; a bucket
in which one side is absent gets volume `0` for that side. -/
theorem order_imbalance_core_imbalance (df : List Listing) (c byArg : String)
    (out : List ImbRow) (hok : order_imbalance_core df c byArg = .ok out)
    (r : ImbRow) (hr : r ∈ out) :
    (0 < r.buy_volume + r.sell_volume →
        r.imbalance
          = (r.buy_volume - r.sell_volume) / (r.buy_volume + r.sell_volume))
    ∧ (¬ 0 < r.buy_volume + r.sell_volume → r.imbalance = 0)
    ∧ ((∀ l ∈ df, 0 ≤ l.max_amount) →
        (-1 ≤ r.imbalance ∧ r.imbalance ≤ 1)
        ∧ (r.buy_volume + r.sell_volume = 0 → r.imbalance = 0)
        ∧ (r.buy_volume + r.sell_volume ≠ 0 →
            r.imbalance
              = (r.buy_volume - r.sell_volume) / (r.buy_volume + r.sell_volume)))
    ∧ ((∀ l ∈ df, ¬ (l.date = r.date ∧ l.scrape_hour = r.hour ∧ l.side = "BUY")) →
        r.buy_volume = 0)
    ∧ ((∀ l ∈ df, ¬ (l.date = r.date ∧ l.scrape_hour = r.hour ∧ l.side = "SELL")) →
        r.sell_volume = 0) := by
  have hmem : ∃ k ∈ imbKeys df, r = imbRowOf df c k := by
    unfold order_imbalance_core at hok
    by_cases hb : byArg = "hour"
    · rw [if_neg (fun h => h hb)] at hok
      by_cases hs : (hasSide df "BUY" && hasSide df "SELL") = true
      · rw [if_pos hs] at hok
        have hout : out = (imbKeys df).map (imbRowOf df c) :=
          (Except.ok.inj hok).symm
        rcases List.mem_map.mp (hout ▸ hr) with ⟨k, hk, hkr⟩
        exact ⟨k, hk, hkr.symm⟩
      · rw [if_neg hs] at hok; simp at hok
    · rw [if_pos hb] at hok; simp at hok
  rcases hmem with ⟨k, -, hk⟩
  subst hk
  simp only [imbRowOf]
  set b := sideVolume df "BUY" k with hbdef
  set s := sideVolume df "SELL" k with hsdef
  have hvol0 : ∀ sd : String,
      (∀ l ∈ df, ¬ (l.date = k.1 ∧ l.scrape_hour = k.2 ∧ l.side = sd)) →
      sideVolume df sd k = 0 := by
    intro sd habs
    unfold sideVolume
    have : df.filter
        (fun r => r.date == k.1 && r.scrape_hour == k.2 && r.side == sd) = [] := by
      rw [List.filter_eq_nil_iff]
      intro l hl
      have := habs l hl
      simp only [Bool.and_eq_true, beq_iff_eq]
      tauto
    rw [this]; simp
  refine ⟨fun h => by rw [if_pos h], fun h => by rw [if_neg h], ?_, ?_, ?_⟩
  · intro hnn
    have hsum : ∀ sd : String, 0 ≤ sideVolume df sd k := by
      intro sd
      apply List.sum_nonneg
      intro q hq
      rcases List.mem_map.mp hq with ⟨l, hl, hlq⟩
      exact hlq ▸ hnn l (List.mem_of_mem_filter hl)
    have hb0 : 0 ≤ b := hsum "BUY"
    have hs0 : 0 ≤ s := hsum "SELL"
    constructor
    · by_cases hpos : 0 < b + s
      · rw [if_pos hpos]
        constructor
        · rw [le_div_iff₀ hpos]; linarith
        · rw [div_le_one hpos]; linarith
      · rw [if_neg hpos]; norm_num
    · constructor
      · intro h0
        rw [if_neg (by rw [h0]; exact lt_irrefl 0)]
      · intro hne
        have hpos : 0 < b + s := lt_of_le_of_ne (by linarith) (Ne.symm hne)
        rw [if_pos hpos]
  · exact hvol0 "BUY"
  · exact hvol0 "SELL"

/-- Input for the C1 witness: one bucket with buy volume `10` and sell
volume `30`. -/
def imbWitDf : List Listing :=
  [mkListing 1 2 "ARS" "BUY" 100 10 "A",
   mkListing 1 2 "ARS" "SELL" 101 30 "B"]

/-- The single output row `_order_imbalance_core` produces on `imbWitDf`. -/
def imbWitRow : ImbRow :=
  { date := 1, hour := 2, buy_volume := 10, sell_volume := 30,
    currency := "ARS", imbalance := -1/2 }

theorem order_imbalance_core_imbalance_witness :
    order_imbalance_core imbWitDf "ARS" "hour" = .ok [imbWitRow]
    ∧ imbWitRow ∈ [imbWitRow]
    ∧ ((0 < imbWitRow.buy_volume + imbWitRow.sell_volume →
          imbWitRow.imbalance
            = (imbWitRow.buy_volume - imbWitRow.sell_volume)
              / (imbWitRow.buy_volume + imbWitRow.sell_volume))
      ∧ (¬ 0 < imbWitRow.buy_volume + imbWitRow.sell_volume →
          imbWitRow.imbalance = 0)
      ∧ ((∀ l ∈ imbWitDf, 0 ≤ l.max_amount) →
          (-1 ≤ imbWitRow.imbalance ∧ imbWitRow.imbalance ≤ 1)
          ∧ (imbWitRow.buy_volume + imbWitRow.sell_volume = 0 →
              imbWitRow.imbalance = 0)
          ∧ (imbWitRow.buy_volume + imbWitRow.sell_volume ≠ 0 →
              imbWitRow.imbalance
                = (imbWitRow.buy_volume - imbWitRow.sell_volume)
                  / (imbWitRow.buy_volume + imbWitRow.sell_volume)))
      ∧ ((∀ l ∈ imbWitDf,
            ¬ (l.date = imbWitRow.date ∧ l.scrape_hour = imbWitRow.hour
                ∧ l.side = "BUY")) → imbWitRow.buy_volume = 0)
      ∧ ((∀ l ∈ imbWitDf,
            ¬ (l.date = imbWitRow.date ∧ l.scrape_hour = imbWitRow.hour
                ∧ l.side = "SELL")) → imbWitRow.sell_volume = 0)) := by
  have hok : order_imbalance_core imbWitDf "ARS" "hour" = .ok [imbWitRow] := by
    have hkeys : imbKeys imbWitDf = [(1, 2)] := by decide
    have hbv : sideVolume imbWitDf "BUY" (1, 2) = 10 := by
      simp [sideVolume, imbWitDf, mkListing]
    have hsv : sideVolume imbWitDf "SELL" (1, 2) = 30 := by
      simp [sideVolume, imbWitDf, mkListing]
    have hrow : imbRowOf imbWitDf "ARS" (1, 2) = imbWitRow := by
      simp only [imbRowOf, hbv, hsv, imbWitRow]
      norm_num
    have hside : (hasSide imbWitDf "BUY" && hasSide imbWitDf "SELL") = true := by
      decide
    unfold order_imbalance_core
    rw [if_neg (fun h => h rfl), if_pos hside, hkeys]
    simp [hrow]
  exact ⟨hok, List.mem_singleton.mpr rfl,
    order_imbalance_core_imbalance imbWitDf "ARS" "hour" [imbWitRow] hok
      imbWitRow (List.mem_singleton.mpr rfl)⟩

/-- The two-listing ARS dataset of the end-to-end spread property: one BUY
at 1500 and one SELL at 1510 on the same date (the repository's own test
fixture). -/
def arsSpreadDf : List Listing :=
  [mkListing 7 10 "ARS" "BUY" 1500 1000 "A",
   mkListing 7 11 "ARS" "SELL" 1510 2500 "B"]

/-- The single row `_p2p_spread_core` produces on `arsSpreadDf`
(`200/301 = 10/1505*100`). -/
def arsSpreadRow : SpreadRow :=
  { date := 7, hour := none, avg_buy_price := some 1500,
    avg_sell_price := some 1510, currency := "ARS", spread_abs := some 10,
    spread_pct := some (200 / 301) }

/-- Evaluation of the spread core on the concrete two-listing ARS frame
(shared by several witnesses). -/
theorem p2p_spread_core_ars_eval :
    p2p_spread_core arsSpreadDf "ARS" "day" = Except.ok [arsSpreadRow] := by
  have hkeys : spreadKeys arsSpreadDf "day" = [(7, none)] := by decide
  have hb : bucketSidePrices arsSpreadDf "BUY" (7, none) = [1500] := by
    simp [bucketSidePrices, arsSpreadDf, mkListing, inBucket]
  have hs : bucketSidePrices arsSpreadDf "SELL" (7, none) = [1510] := by
    simp [bucketSidePrices, arsSpreadDf, mkListing, inBucket]
  have hside : (hasSide arsSpreadDf "BUY" && hasSide arsSpreadDf "SELL")
      = true := by decide
  unfold p2p_spread_core
  rw [if_pos (Or.inl rfl), if_pos hside, hkeys]
  simp only [List.map, spreadRowOf, hb, hs]
  norm_num [qmean, oabs, osub, oadd, ohalf, odivQ, omap2, arsSpreadRow]

/-- **C3.**  On a dataset of exactly two ARS listings on one date, BUY at
1500 and SELL at 1510, `p2p_spread('ARS', by='day')` returns one row with
`avg_buy_price = 1500`, `avg_sell_price = 1510`, `spread_abs = 10` and
`spread_pct = 10 / 1505 * 100`. -/
theorem p2p_spread_ars_day :
    p2p_spread_core arsSpreadDf "ARS" "day"
      = Except.ok [{ date := 7, hour := none, avg_buy_price := some 1500,
                     avg_sell_price := some 1510, currency := "ARS",
                     spread_abs := some 10,
                     spread_pct := some (10 / 1505 * 100) }] := by
  rw [p2p_spread_core_ars_eval]
  norm_num [arsSpreadRow]

/-- Dataset whose sole bucket has `avg_buy_price = avg_sell_price = 0`, so
`mid = 0` while both averages are defined. -/
def spreadCexDf : List Listing :=
  [mkListing 1 0 "ARS" "BUY" 0 100 "A",
   mkListing 1 0 "ARS" "SELL" 0 100 "B"]

/-- **C2, counterexample.**  A bucket with both average prices equal to `0`
has `mid = (0 + 0) / 2 = 0`, yet `spread_abs = |0 - 0|` is the defined value
`0`, not `NaN`; only `spread_pct` (a division by the zero mid) is undefined
there. -/
theorem spread_zero_mid_cex :
    p2p_spread_core spreadCexDf "ARS" "day"
      = Except.ok [{ date := 1, hour := none, avg_buy_price := some 0,
                     avg_sell_price := some 0, currency := "ARS",
                     spread_abs := some 0, spread_pct := none }]
    ∧ ohalf (oadd (some 0) (some 0)) = some (0 : ℚ)
    ∧ some (0 : ℚ) ≠ none := by
  refine ⟨?_, by norm_num [ohalf, oadd, omap2], by simp⟩
  have hkeys : spreadKeys spreadCexDf "day" = [(1, none)] := by decide
  have hb : bucketSidePrices spreadCexDf "BUY" (1, none) = [0] := by
    simp [bucketSidePrices, spreadCexDf, mkListing, inBucket]
  have hs : bucketSidePrices spreadCexDf "SELL" (1, none) = [0] := by
    simp [bucketSidePrices, spreadCexDf, mkListing, inBucket]
  have hside : (hasSide spreadCexDf "BUY" && hasSide spreadCexDf "SELL")
      = true := by decide
  unfold p2p_spread_core
  rw [if_pos (Or.inl rfl), if_pos hside, hkeys]
  simp only [List.map, spreadRowOf, hb, hs]
  norm_num [qmean, oabs, osub, oadd, ohalf, odivQ, omap2]

/-- Dataset whose listings all fall at hour 10 of one date. -/
def hour10Df : List Listing :=
  [mkListing 1 10 "ARS" "BUY" 100 1000 "A",
   mkListing 1 10 "ARS" "SELL" 102 1000 "B"]

/-- **C9, counterexample.**  `intraday_profile` pivots on the hours that
occur in the data: a dataset observed only at hour 10 yields one output row,
not one row per hour 0–23 (24 rows). -/
theorem intraday_profile_cex :
    (intraday_profile hour10Df "ARS").length = 1 ∧ (1 : Nat) ≠ 24 := by
  constructor
  · have hkeys : hourKeys hour10Df = [10] := by decide
    simp [intraday_profile, hkeys]
  · decide

/-- **C9 (amended).**  `intraday_profile` returns one row per *distinct hour
present in the input* (in ascending order), each reporting the mean BUY and
mean SELL price of that hour across all dates. -/
theorem intraday_profile_hours (df : List Listing) (c : String) :
    (intraday_profile df c).map (fun r => r.hour) = hourKeys df
    ∧ ∀ row ∈ intraday_profile df c,
        row.mean_buy_price = qmean (hourSidePrices df "BUY" row.hour)
        ∧ row.mean_sell_price = qmean (hourSidePrices df "SELL" row.hour)
        ∧ row.currency = c := by
  constructor
  · unfold intraday_profile
    rw [List.map_map]
    show List.map (fun h => h) (hourKeys df) = hourKeys df
    simp
  · intro row hrow
    rcases List.mem_map.mp hrow with ⟨h, hh, hr⟩
    subst hr
    exact ⟨rfl, rfl, rfl⟩

/-- The single row `intraday_profile` produces on `hour10Df`. -/
def hour10Row : IntradayRow :=
  { hour := 10, mean_buy_price := some 100, mean_sell_price := some 102,
    currency := "ARS" }

theorem intraday_profile_hours_witness :
    hour10Row ∈ intraday_profile hour10Df "ARS"
    ∧ (hour10Row.mean_buy_price
         = qmean (hourSidePrices hour10Df "BUY" hour10Row.hour)
       ∧ hour10Row.mean_sell_price
         = qmean (hourSidePrices hour10Df "SELL" hour10Row.hour)
       ∧ hour10Row.currency = "ARS") := by
  have hmem : hour10Row ∈ intraday_profile hour10Df "ARS" := by
    have hkeys : hourKeys hour10Df = [10] := by decide
    have hb : hourSidePrices hour10Df "BUY" 10 = [100] := by
      simp [hourSidePrices, hour10Df, mkListing]
    have hs : hourSidePrices hour10Df "SELL" 10 = [102] := by
      simp [hourSidePrices, hour10Df, mkListing]
    have : intraday_profile hour10Df "ARS" = [hour10Row] := by
      unfold intraday_profile
      rw [hkeys]
      simp only [List.map, hb, hs]
      norm_num [qmean, hour10Row]
    rw [this]; exact List.mem_singleton.mpr rfl
  exact ⟨hmem, (intraday_profile_hours hour10Df "ARS").2 hour10Row hmem⟩

/-- The single bucket row the summary core produces on `arsSpreadDf`. -/
def arsSummaryBase : SumBase :=
  { date := 7, hour := none, currency := "ARS",
    avg_buy_price := some 1500, avg_sell_price := some 1510,
    min_buy_price := some 1500, min_sell_price := some 1510,
    max_buy_price := some 1500, max_sell_price := some 1510,
    mid_price := some 1505, spread_abs := some 10,
    spread_pct := some (200 / 301) }

/-- The single output row of `p2p_summary` on `arsSpreadDf` (no previous
row of the currency, so all change columns are `NaN`). -/
def arsSummaryRow : SummaryRow := chgOut none arsSummaryBase

/-- Evaluation of the summary core on the concrete two-listing ARS frame
(shared by several witnesses). -/
theorem p2p_summary_core_ars :
    p2p_summary_core arsSpreadDf "day" = .ok [arsSummaryRow] := by
  have hkeys : sumKeys arsSpreadDf "day" = [(7, none, "ARS")] := by decide
  have hpb : sumPrices arsSpreadDf "day" "BUY" (7, none, "ARS") = [1500] := by
    simp [sumPrices, arsSpreadDf, mkListing, sumKeyOf]
  have hps : sumPrices arsSpreadDf "day" "SELL" (7, none, "ARS") = [1510] := by
    simp [sumPrices, arsSpreadDf, mkListing, sumKeyOf]
  have hbase : sumBaseOf arsSpreadDf "day" (7, none, "ARS") = arsSummaryBase := by
    simp only [sumBaseOf, hpb, hps]
    norm_num [qmean, qminOf, qmaxOf, List.min?, List.max?, oadd, osub, oabs,
      ohalf, odivQ, omap2, arsSummaryBase]
  unfold p2p_summary_core
  rw [if_pos (Or.inl rfl),
    if_pos (show (hasSide arsSpreadDf "BUY" && hasSide arsSpreadDf "SELL")
      = true by decide), hkeys]
  simp only [List.map, hbase]
  rfl

theorem p2p_summary_changes_per_currency_witness :
    p2p_summary_core arsSpreadDf "day" = .ok [arsSummaryRow]
    ∧ ([arsSummaryRow].get? 0 = some arsSummaryRow)
    ∧ (arsSummaryRow.mid_price_change = none
       ∧ arsSummaryRow.mid_price_pct_change = none
       ∧ arsSummaryRow.spread_abs_change = none
       ∧ arsSummaryRow.spread_pct_change = none) :=
  ⟨p2p_summary_core_ars, rfl,
    (p2p_summary_changes_per_currency arsSpreadDf "day" [arsSummaryRow]
        p2p_summary_core_ars).1 0 arsSummaryRow rfl
      (fun j _ hj _ => absurd hj (Nat.not_lt_zero j))⟩

theorem spread_formulas_witness :
    p2p_summary_core arsSpreadDf "day" = .ok [arsSummaryRow]
    ∧ arsSummaryRow ∈ [arsSummaryRow]
    ∧ (arsSummaryRow.mid_price
         = ohalf (oadd arsSummaryRow.avg_buy_price arsSummaryRow.avg_sell_price)
       ∧ arsSummaryRow.spread_abs
         = oabs (osub arsSummaryRow.avg_sell_price arsSummaryRow.avg_buy_price)
       ∧ arsSummaryRow.spread_pct
         = (odivQ arsSummaryRow.spread_abs arsSummaryRow.mid_price).map
             (fun q => q * 100)
       ∧ (arsSummaryRow.mid_price = some 0 → arsSummaryRow.spread_pct = none)) :=
  ⟨p2p_summary_core_ars, List.mem_singleton.mpr rfl,
    (spread_formulas arsSpreadDf [] "ARS" "day" []).2.2 [arsSummaryRow]
      p2p_summary_core_ars arsSummaryRow (List.mem_singleton.mpr rfl)⟩

/-- **C5, counterexample.**  `top_advertisers` with a side filter matching
no rows returns the empty *input* frame (`df.head(0)`, "empty with same
columns"): its column list is the listing schema, which lacks the aggregate
columns `ads_count`, `total_volume`, `avg_finish_rate`, `avg_positive_rate`
that the claimed output column set requires. -/
theorem top_advertisers_empty_cols_cex :
    top_advertisers arsSpreadDf "ARS" (some "XXX") none none "volume" 10
      = .ok ⟨listingCols, []⟩
    ∧ "merchant_name" ∈ listingCols ∧ "currency" ∈ listingCols
    ∧ "ads_count" ∉ listingCols ∧ "total_volume" ∉ listingCols
    ∧ "avg_finish_rate" ∉ listingCols ∧ "avg_positive_rate" ∉ listingCols := by
  refine ⟨?_, by decide, by decide, by decide, by decide, by decide, by decide⟩
  unfold top_advertisers
  rw [if_pos (show (advFiltered arsSpreadDf (some "XXX") none none).isEmpty
    = true by decide)]

/-- **C5 (amended).**  For every input on which the side/date filters leave
zero rows, `top_advertisers` returns — without error, for any metric — a
zero-row result whose column set is the *input listing schema* (the
`df.head(0)` early return), which contains `merchant_name` and `currency`
but not the aggregate columns of the non-empty path. -/
theorem top_advertisers_empty (df : List Listing) (currency : String)
    (side : Option String) (sd ed : Option Nat) (metric : String) (n : Nat)
    (hempty : advFiltered df side sd ed = []) :
    top_advertisers df currency side sd ed metric n = .ok ⟨listingCols, []⟩
    ∧ "merchant_name" ∈ listingCols ∧ "currency" ∈ listingCols
    ∧ "ads_count" ∉ listingCols := by
  refine ⟨?_, by decide, by decide, by decide⟩
  unfold top_advertisers
  rw [if_pos (by rw [hempty]; rfl)]

theorem top_advertisers_empty_witness :
    advFiltered arsSpreadDf (some "XXX") none none = []
    ∧ (top_advertisers arsSpreadDf "ARS" (some "XXX") none none "volume" 3
         = .ok ⟨listingCols, []⟩
       ∧ "merchant_name" ∈ listingCols ∧ "currency" ∈ listingCols
       ∧ "ads_count" ∉ listingCols) :=
  have h1 : advFiltered arsSpreadDf (some "XXX") none none = [] := by decide
  ⟨h1, top_advertisers_empty arsSpreadDf "ARS" (some "XXX") none none
    "volume" 3 h1⟩

/-- **C10.**  `top_advertisers` validates its `metric` argument only after
the empty-input early return: an empty filtered frame returns the empty
result for *any* metric value without raising, while a non-empty filtered
frame with a metric outside `{'volume','ads'}` raises the validation
`ValueError`. -/
theorem top_advertisers_metric_after_empty (df : List Listing)
    (currency : String) (side : Option String) (sd ed : Option Nat)
    (metric : String) (n : Nat) :
    (advFiltered df side sd ed = [] →
       top_advertisers df currency side sd ed metric n = .ok ⟨listingCols, []⟩)
    ∧ (advFiltered df side sd ed ≠ [] → metric ≠ "volume" → metric ≠ "ads" →
       top_advertisers df currency side sd ed metric n
         = .error .invalidMetric) := by
  constructor
  · intro hempty
    unfold top_advertisers
    rw [if_pos (by rw [hempty]; rfl)]
  · intro hne hv ha
    unfold top_advertisers
    rw [if_neg (show ¬ (advFiltered df side sd ed).isEmpty = true by
      simp only [List.isEmpty_iff]; exact hne)]
    rw [if_neg (fun h => h.elim hv ha)]

theorem top_advertisers_metric_after_empty_witness :
    (advFiltered arsSpreadDf (some "XXX") none none = []
     ∧ top_advertisers arsSpreadDf "ARS" (some "XXX") none none "bogus" 10
         = .ok ⟨listingCols, []⟩)
    ∧ (advFiltered arsSpreadDf none none none ≠ []
       ∧ top_advertisers arsSpreadDf "ARS" none none none "bogus" 10
           = .error .invalidMetric) :=
  have h1 : advFiltered arsSpreadDf (some "XXX") none none = [] := by decide
  have h2 : advFiltered arsSpreadDf none none none ≠ [] := by decide
  ⟨⟨h1, (top_advertisers_metric_after_empty arsSpreadDf "ARS" (some "XXX")
      none none "bogus" 10).1 h1⟩,
   ⟨h2, (top_advertisers_metric_after_empty arsSpreadDf "ARS" none
      none none "bogus" 10).2 h2 (by decide) (by decide)⟩⟩

/-- A concrete BCB table: ARS rates on dates 7 and 9, an EUR rate on
date 7. -/
def premBcb : List RateRow :=
  [{ date := 7, currency := "ARS", official_exchange_rate := 1400 },
   { date := 9, currency := "ARS", official_exchange_rate := 1 },
   { date := 7, currency := "EUR", official_exchange_rate := 2 }]

/-- The single joined row of `official_premium` on `arsSpreadDf` and
`premBcb`: mid `1505` against rate `1400` on the common date 7
(`|1505 - 1400| = 105`, `(1505/1400 - 1) * 100 = 15/2`). -/
def premWitRow : PremiumRow :=
  { date := 7, currency := "ARS", p2p_avg_price := some 1505,
    official_exchange_rate := 1400, premium_abs := some 105,
    premium_pct := some (15 / 2) }

/-- Evaluation of `official_premium` on the concrete frames. -/
theorem official_premium_ars_eval :
    official_premium (fun _ => arsSpreadDf) premBcb "ARS" "day"
      = .ok [premWitRow] := by
  unfold official_premium
  rw [if_neg (fun h => h rfl), p2p_spread_core_ars_eval]
  show Except.ok ([arsSpreadRow].flatMap _) = _
  simp only [List.flatMap_cons, List.flatMap_nil, List.append_nil]
  norm_num [premBcb, arsSpreadRow, premiumRowOf, premWitRow, oadd, ohalf,
    osub, oabs, odivQ, omap2]
  decide

theorem official_premium_spec_witness :
    ("hour" : String) ≠ "day"
    ∧ official_premium (fun _ => arsSpreadDf) premBcb "ARS" "hour"
        = .error .notImplemented
    ∧ official_premium (fun _ => arsSpreadDf) premBcb "ARS" "day"
        = .ok [premWitRow]
    ∧ (∀ r ∈ [premWitRow],
          r.premium_abs
            = oabs (osub r.p2p_avg_price (some r.official_exchange_rate))
          ∧ r.premium_pct
            = (odivQ r.p2p_avg_price (some r.official_exchange_rate)).map
                (fun q => (q - 1) * 100))
    ∧ (∀ d : Nat, (∃ r ∈ [premWitRow], r.date = d)
        ↔ ((∃ dr ∈ [arsSpreadRow], dr.date = d)
            ∧ ∃ br ∈ premBcb, br.currency = "ARS" ∧ br.date = d)) := by
  have h1 : ("hour" : String) ≠ "day" := by decide
  exact ⟨h1,
    (official_premium_spec (fun _ => arsSpreadDf) premBcb "ARS" "hour").1 h1,
    official_premium_ars_eval,
    ((official_premium_spec (fun _ => arsSpreadDf) premBcb "ARS" "day").2
      [premWitRow] [arsSpreadRow] official_premium_ars_eval
      p2p_spread_core_ars_eval).1,
    ((official_premium_spec (fun _ => arsSpreadDf) premBcb "ARS" "day").2
      [premWitRow] [arsSpreadRow] official_premium_ars_eval
      p2p_spread_core_ars_eval).2⟩

/-- A three-day single-currency dataset, both sides present each day, with
positive mid prices 10, 20, 40. -/
def volCexDf : List Listing :=
  [mkListing 1 0 "ARS" "BUY" 10 1 "A", mkListing 1 0 "ARS" "SELL" 10 1 "B",
   mkListing 2 0 "ARS" "BUY" 20 1 "A", mkListing 2 0 "ARS" "SELL" 20 1 "B",
   mkListing 3 0 "ARS" "BUY" 40 1 "A", mkListing 3 0 "ARS" "SELL" 40 1 "B"]

/-- The output of `price_volatility` on `volCexDf` with window 2. -/
noncomputable def volCexOut : List VolRow :=
  volStage2 2 (volStage1
    ((sumKeys volCexDf "day").map (volBaseOf volCexDf "day")))

theorem price_volatility_cex_ok :
    price_volatility_core volCexDf "day" 2 = .ok volCexOut := by
  unfold price_volatility_core volCexOut
  rw [if_pos (Or.inl rfl), if_pos (by decide)]

/-- The concrete bucket rows of `volCexDf`. -/
def volCexB1 : VolBase :=
  { date := 1, hour := none, currency := "ARS", avg_buy_price := some 10,
    avg_sell_price := some 10, mid_price := some 10 }

/-- Second bucket row of `volCexDf`. -/
def volCexB2 : VolBase :=
  { date := 2, hour := none, currency := "ARS", avg_buy_price := some 20,
    avg_sell_price := some 20, mid_price := some 20 }

/-- Third bucket row of `volCexDf`. -/
def volCexB3 : VolBase :=
  { date := 3, hour := none, currency := "ARS", avg_buy_price := some 40,
    avg_sell_price := some 40, mid_price := some 40 }

/-- Evaluation of the volatility pipeline on `volCexDf`: the mid prices are
10, 20, 40, and the volatility cells are missing, missing, present — with
window 2 the first two rows are `NaN` and only the third holds a value. -/
theorem volCexOut_eval :
    volCexOut.map (fun r => (r.currency, r.mid_price, r.volatility.isSome))
      = [("ARS", some 10, false), ("ARS", some 20, false),
         ("ARS", some 40, true)] := by
  have hdedup : (volCexDf.map (fun r => sumKeyOf r "day")).dedup
      = [(1, none, "ARS"), (2, none, "ARS"), (3, none, "ARS")] := by decide
  have hkeys : sumKeys volCexDf "day"
      = [(1, none, "ARS"), (2, none, "ARS"), (3, none, "ARS")] := by
    rw [sumKeys, hdedup]
    simp [List.insertionSort, List.orderedInsert, sumSortLE]
  have hpb1 : sumPrices volCexDf "day" "BUY" (1, none, "ARS") = [10] := by
    simp [sumPrices, volCexDf, mkListing, sumKeyOf]
  have hps1 : sumPrices volCexDf "day" "SELL" (1, none, "ARS") = [10] := by
    simp [sumPrices, volCexDf, mkListing, sumKeyOf]
  have hpb2 : sumPrices volCexDf "day" "BUY" (2, none, "ARS") = [20] := by
    simp [sumPrices, volCexDf, mkListing, sumKeyOf]
  have hps2 : sumPrices volCexDf "day" "SELL" (2, none, "ARS") = [20] := by
    simp [sumPrices, volCexDf, mkListing, sumKeyOf]
  have hpb3 : sumPrices volCexDf "day" "BUY" (3, none, "ARS") = [40] := by
    simp [sumPrices, volCexDf, mkListing, sumKeyOf]
  have hps3 : sumPrices volCexDf "day" "SELL" (3, none, "ARS") = [40] := by
    simp [sumPrices, volCexDf, mkListing, sumKeyOf]
  have hvb1 : volBaseOf volCexDf "day" (1, none, "ARS") = volCexB1 := by
    simp only [volBaseOf, hpb1, hps1]
    norm_num [qmean, oadd, ohalf, omap2, volCexB1]
  have hvb2 : volBaseOf volCexDf "day" (2, none, "ARS") = volCexB2 := by
    simp only [volBaseOf, hpb2, hps2]
    norm_num [qmean, oadd, ohalf, omap2, volCexB2]
  have hvb3 : volBaseOf volCexDf "day" (3, none, "ARS") = volCexB3 := by
    simp only [volBaseOf, hpb3, hps3]
    norm_num [qmean, oadd, ohalf, omap2, volCexB3]
  unfold volCexOut
  rw [hkeys]
  simp only [List.map, hvb1, hvb2, hvb3]
  simp only [volStage1, volStage2, groupedMap, lrOut, volOut, volCexB1,
    volCexB2, volCexB3]
  norm_num [ologQ, osubR, rollingStd, List.map]

/-- **C4, counterexample.**  `price_volatility` with window `w = 2` on a
three-day single-currency dataset with positive mid prices: the claim says
volatility is `NaN` only for the first `w - 1 = 1` row and holds a value
from the `w`-th row (index 1) onward, but the code's second row is still
`NaN` — the first row's log-return is itself `NaN` and sits inside the first
full window — and the first value appears only at row `w + 1` (index 2). -/
theorem price_volatility_cex :
    (price_volatility_core volCexDf "day" 2).map
        (List.map (fun r => r.volatility.isSome))
      = Except.ok [false, false, true]
    ∧ [false, false, true].get? (2 - 1) = some false
    ∧ false ≠ true := by
  refine ⟨?_, rfl, by decide⟩
  rw [price_volatility_cex_ok]
  show Except.ok (volCexOut.map (fun r => r.volatility.isSome)) = _
  have h := congrArg
    (List.map (fun t : String × Option ℚ × Bool => t.2.2)) volCexOut_eval
  rw [List.map_map] at h
  have h2 : List.map (fun t : String × Option ℚ × Bool => t.2.2)
      [("ARS", some 10, false), ("ARS", some 20, false),
       ("ARS", some 40, true)] = [false, false, true] := rfl
  rw [h2] at h
  exact congrArg Except.ok h

theorem price_volatility_window_witness :
    price_volatility_core volCexDf "day" 2 = .ok volCexOut
    ∧ (2 : Nat) ≤ 2 ∧ (1 : Nat) < 2
    ∧ ((volCexOut.filter (fun x => x.currency == "ARS")).get? 1).map
        (fun r => r.volatility.isSome) = some false
    ∧ ((volCexOut.filter (fun x => x.currency == "ARS")).get? 2).map
        (fun r => r.volatility.isSome) = some true := by
  have hthm := price_volatility_window volCexDf "day" 2 volCexOut
    price_volatility_cex_ok "ARS"
  have hcur : ∀ x ∈ volCexOut, (x.currency == "ARS") = true := by
    intro x hx
    have hmx : (x.currency, x.mid_price, x.volatility.isSome)
        ∈ [(("ARS" : String), some (10 : ℚ), false), ("ARS", some 20, false),
           ("ARS", some 40, true)] := by
      rw [← volCexOut_eval]
      exact List.mem_map.mpr ⟨x, hx, rfl⟩
    simp only [List.mem_cons, List.not_mem_nil, or_false] at hmx
    rcases hmx with h | h | h <;>
      · rw [show x.currency = "ARS" from congrArg Prod.fst h]
        simp
  have hfilt : volCexOut.filter (fun x => x.currency == "ARS") = volCexOut :=
    List.filter_eq_self.mpr hcur
  have hlen : volCexOut.length = 3 := by
    have := congrArg List.length volCexOut_eval
    rwa [List.length_map] at this
  have hmid : ∀ j q, j ≤ 2 →
      (volCexOut.filter (fun x => x.currency == "ARS")).get? j = some q →
      ∃ m, q.mid_price = some m ∧ 0 < m := by
    intro j q hj hq
    rw [hfilt] at hq
    have hproj : (volCexOut.map
          (fun r => (r.currency, r.mid_price, r.volatility.isSome))).get? j
        = some (q.currency, q.mid_price, q.volatility.isSome) := by
      rw [List.get?_map, hq]
      rfl
    rw [volCexOut_eval] at hproj
    interval_cases j
    · refine ⟨10, ?_, by norm_num⟩
      have := (Option.some.inj hproj)
      exact congrArg (fun t : String × Option ℚ × Bool => t.2.1) this.symm
    · refine ⟨20, ?_, by norm_num⟩
      have := (Option.some.inj hproj)
      exact congrArg (fun t : String × Option ℚ × Bool => t.2.1) this.symm
    · refine ⟨40, ?_, by norm_num⟩
      have := (Option.some.inj hproj)
      exact congrArg (fun t : String × Option ℚ × Bool => t.2.1) this.symm
  refine ⟨price_volatility_cex_ok, le_refl 2, by omega, ?_, ?_⟩
  · rcases h1 : volCexOut.get? 1 with _ | r
    · rw [List.get?_eq_none] at h1
      omega
    · rw [hfilt, h1]
      have := hthm.1 1 r (by omega) (by rw [hfilt]; exact h1)
      rw [Option.map_some', this]
      rfl
  · rcases h2 : volCexOut.get? 2 with _ | r
    · rw [List.get?_eq_none] at h2
      omega
    · rw [hfilt, h2]
      have := hthm.2.1 2 r (le_refl 2) (le_refl 2)
        (by rw [hfilt]; exact h2) hmid
      rw [Option.map_some', Option.ne_none_iff_isSome.mp this]

end P2P
